import Mathlib

/-!
Shallow embedding of `src/lib/common/socketpool.c` (the outbound connection
pool of the h2o repository snapshot under verification).

Modelling conventions:
* `size_t` counters (`pool->_shared.count`, `target->_shared.request_count`,
  entry ids) are `Nat` reduced modulo `W = 2 ^ 64` where the C code can wrap.
* The two intrusive `h2o_linklist_t` chains are modelled as lists of entry
  ids: `Pool.sockets` is the pool-wide chain (head = `anchor.next` = oldest,
  `h2o_linklist_insert (anchor, node)` inserts before the anchor, i.e. at the
  tail) and `Target.idle` is the per-target chain with the same orientation.
  `h2o/linklist.h` is not under `src/`; the insert-before-anchor semantics is
  pinned by the spec's pool-wide FIFO contract (insert at tail, expiration
  pops the head, list sorted by `added_at`).
* External effects (liveness probe, `h2o_socket_connect`, the resolver, the
  balancer selector, fresh fds) are supplied by an `Oracle`; a run of the
  connect state machine is the whole asynchronous lifecycle of one request,
  folded into a terminating function, with an event trace recording callback
  invocations, the `free` of the request object, and pool-counter updates.
* C `assert` failures and undefined behaviour reachable only from states the
  pool never constructs are modelled as an aborted result that leaves the
  state unchanged and emits no further events.
-/

set_option maxRecDepth 2000

namespace H2O

/-- `2 ^ 64`: modulus of every `size_t` counter in socketpool.c. -/
def W : Nat := 2 ^ 64

/-- `__sync_add_and_fetch(&x, 1)` on a `size_t` value. -/
def addW (x : Nat) : Nat := (x + 1) % W

/-- `__sync_sub_and_fetch(&x, 1)` on a `size_t` value. -/
def subW (x : Nat) : Nat := (x + (W - 1)) % W

/-- `n` successive `subW` steps. -/
def subWn (x : Nat) : Nat → Nat
  | 0 => x
  | n + 1 => subW (subWn x n)

/-- `h2o_strtolower` on one byte (ASCII). -/
def lowByte (b : Nat) : Nat := if 65 ≤ b ∧ b ≤ 90 then b + 32 else b

/-- `h2o_strtolower` over a byte string. -/
def lowBytes (s : List Nat) : List Nat := s.map lowByte

/-- Modelled from the spec: `h2o_url_host_to_sun` (URL module, not under
`src/`) recognises a host that encodes a Unix-socket path; we model such a
host as one beginning with the bytes of `"unix:"`. -/
def isUnixHost : List Nat → Bool
  | 117 :: 110 :: 105 :: 120 :: 58 :: _ => true
  | _ => false

/-- Decimal value of a byte string of digits. -/
def octetVal (p : List Nat) : Nat := p.foldl (fun a b => a * 10 + (b - 48)) 0

/-- One dotted-quad component: nonempty, all digits, value at most 255. -/
def octetOK (p : List Nat) : Bool :=
  decide (1 ≤ p.length) && p.all (fun b => decide (48 ≤ b) && decide (b ≤ 57)) &&
    decide (octetVal p ≤ 255)

/-- Modelled from the spec: `h2o_hostinfo_aton` (hostinfo module, not under
`src/`) "attempts to parse host as a numeric IP"; modelled as a dotted quad
of four decimal octets. -/
def aton_ok (host : List Nat) : Bool :=
  let parts := host.splitOn 46
  decide (parts.length = 4) && parts.all octetOK

/-- A URL scheme: interned global in C (pointer equality), with its default
port. -/
structure Scheme where
  id : Nat
  defaultPort : Nat
deriving DecidableEq, Repr

/-- The fields of `h2o_url_t` the pool reads.  `rawPort` is `_port`, with
65535 meaning "use the scheme's default port". -/
structure URL where
  scheme : Scheme
  host : List Nat
  rawPort : Nat
  authority : List Nat
  path : List Nat
deriving DecidableEq, Repr

/-- Modelled from the spec: `h2o_url_get_port` (URL module, not under
`src/`): the effective port is `_port` unless it is the 65535 sentinel, in
which case the scheme's default port. -/
def h2o_url_get_port (u : URL) : Nat :=
  if u.rawPort = 65535 then u.scheme.defaultPort else u.rawPort

/-- Modelled from the spec: `h2o_url_hosts_are_equal` (URL module, not under
`src/`): "host-equivalence as defined by the URL module", modelled as
ASCII-case-insensitive equality of the host bytes. -/
def h2o_url_hosts_are_equal (a b : URL) : Bool := lowBytes a.host == lowBytes b.host

/-- `h2o_socketpool_target_type_t`. -/
inductive TargetType
  | NAMED
  | SOCKADDR
deriving DecidableEq, Repr

/-- `h2o_socketpool_target_t`: URL, type tag, per-target idle chain
(`_shared.sockets`, as entry ids) and `_shared.request_count`. -/
structure Target where
  url : URL
  typ : TargetType
  idle : List Nat
  request_count : Nat
deriving DecidableEq, Repr

/-- `struct pool_entry_t`: exported socket (identified by its fd), owning
target index, timestamp.  List membership lives in `Pool.sockets` /
`Target.idle`. -/
structure PoolEntry where
  fd : Nat
  target : Nat
  added_at : Nat
deriving DecidableEq, Repr

/-- `struct on_close_data_t`: back-pointer to the pool (as its id) and the
target index. -/
structure OnCloseData where
  poolId : Nat
  target : Nat
deriving DecidableEq, Repr

/-- An `h2o_socket_t` as the pool sees it: underlying fd and the installed
on-close data (the hook is installed iff the data is present). -/
structure Sock where
  fd : Nat
  closeData : Option OnCloseData
deriving DecidableEq, Repr

/-- `h2o_socketpool_t`.  `loopRegistered` models `_interval_cb.loop != NULL`,
`hasBalancer` models `_lb.callbacks != NULL`.  `entries` maps live entry ids
to their records; `nextEntryId` is the allocator for fresh ids. -/
structure Pool where
  id : Nat
  targets : List Target
  sockets : List Nat
  entries : List (Nat × PoolEntry)
  count : Nat
  timeout : Nat
  is_global : Bool
  loopRegistered : Bool
  hasBalancer : Bool
  nextEntryId : Nat
deriving DecidableEq, Repr

/-- Dereference an entry id. -/
def entryAt (pool : Pool) (id : Nat) : Option PoolEntry :=
  (pool.entries.find? (fun p => p.1 == id)).map (·.2)

/-- Placeholder target used to totalise out-of-range indexing (C would be
undefined there; the pool never constructs such indices). -/
def dummyTarget : Target := ⟨⟨⟨0, 0⟩, [], 65535, [], []⟩, .NAMED, [], 0⟩

/-- `pool->targets.entries[i]`, totalised. -/
def getTargetD (pool : Pool) (i : Nat) : Target := (pool.targets.get? i).getD dummyTarget

/-- Update target `i` in place (no-op when out of range, where C is
undefined). -/
def modifyTarget (pool : Pool) (i : Nat) (f : Target → Target) : Pool :=
  match pool.targets.get? i with
  | some t => { pool with targets := pool.targets.set i (f t) }
  | none => pool

/-- `targets.entries[i]->_shared.request_count`. -/
def rcOf (pool : Pool) (i : Nat) : Nat := (getTargetD pool i).request_count

/-- `targets.entries[i]->_shared.sockets` as an id list. -/
def idleOf (pool : Pool) (i : Nat) : List Nat := (getTargetD pool i).idle

/-- `__sync_add_and_fetch(&target->_shared.request_count, 1)`. -/
def incRequestCount (pool : Pool) (i : Nat) : Pool :=
  modifyTarget pool i (fun t => { t with request_count := addW t.request_count })

/-- `__sync_sub_and_fetch(&target->_shared.request_count, 1)`. -/
def decRequestCount (pool : Pool) (i : Nat) : Pool :=
  modifyTarget pool i (fun t => { t with request_count := subW t.request_count })

/-- `h2o_linklist_unlink` on both links of an entry: remove the id from the
pool-wide chain and from its target's chain. -/
def unlinkEntry (pool : Pool) (id : Nat) (tgt : Nat) : Pool :=
  let p := { pool with sockets := pool.sockets.erase id }
  modifyTarget p tgt (fun t => { t with idle := t.idle.erase id })

/-- `destroy_detached`: dispose the socket export and `free(entry)` —
the record disappears from the id map. -/
def removeEntry (pool : Pool) (id : Nat) : Pool :=
  { pool with entries := pool.entries.filter (fun p => !(p.1 == id)) }

/-- The loop of `destroy_expired`, iterating the pool-wide chain from the
head; the recursion argument is the current chain (the loop re-reads
`pool->_shared.sockets.next`, and each iteration removes exactly the head,
so the chain at each iteration is the tail of the previous one). -/
def expireIds (eb : Nat) : Pool → List Nat → Pool
  | pool, [] => pool
  | pool, id :: rest =>
    match entryAt pool id with
    | none => pool
    | some e =>
      if eb < e.added_at then pool
      else
        let p1 := removeEntry (unlinkEntry pool id e.target) id
        expireIds eb { p1 with count := subW p1.count } rest

/-- `destroy_expired`: no-op unless a loop is registered; otherwise drain the
pool-wide chain while `added_at <= now - timeout` (`uint64_t` arithmetic, so
the cutoff wraps modulo `2 ^ 64`). -/
def destroy_expired (pool : Pool) (now : Nat) : Pool :=
  if pool.loopRegistered = false then pool
  else expireIds ((now + (W - pool.timeout % W)) % W) pool pool.sockets

/-- `h2o_socketpool_register_loop` (timer setup elided): idempotent binding
of the expiration loop. -/
def h2o_socketpool_register_loop (pool : Pool) : Pool :=
  if pool.loopRegistered then pool else { pool with loopRegistered := true }

/-- `detect_target_type`. -/
def detect_target_type (url : URL) : TargetType :=
  if isUnixHost url.host then .SOCKADDR
  else if aton_ok url.host then .SOCKADDR
  else .NAMED

/-- `init_target`: copy the URL, lowercase authority and host unless the
target is a Unix socket, zero the request count, empty idle chain.  (The
`peer` union carries no information the model reads beyond the type tag.) -/
def init_target (origin : URL) : Target :=
  let typ := detect_target_type origin
  let url' :=
    if typ = TargetType.SOCKADDR ∧ isUnixHost origin.host then origin
    else { origin with authority := lowBytes origin.authority, host := lowBytes origin.host }
  { url := url', typ := typ, idle := [], request_count := 0 }

/-- `add_target`: append a target built from `origin`, return its index. -/
def add_target (pool : Pool) (origin : URL) : Pool × Nat :=
  ({ pool with targets := pool.targets ++ [init_target origin] }, pool.targets.length)

/-- One step of `lookup_target`'s linear scan (three `continue` guards). -/
def targetMatch (t : Target) (url : URL) : Bool :=
  t.url.scheme == url.scheme && h2o_url_get_port t.url == h2o_url_get_port url &&
    h2o_url_hosts_are_equal t.url url

/-- The scan loop of `lookup_target`. -/
def lookup_go (url : URL) : List Target → Nat → Option Nat
  | [], _ => none
  | t :: rest, i => if targetMatch t url then some i else lookup_go url rest (i + 1)

/-- `lookup_target`: first matching index, `SIZE_MAX` (here `none`) if no
target matches. -/
def lookup_target (pool : Pool) (url : URL) : Option Nat := lookup_go url pool.targets 0

/-- Result of the 1-byte `MSG_PEEK` liveness probe in `try_connect`:
`wouldblock` = `EAGAIN`/`EWOULDBLOCK` (healthy), `eof` = `rret <= 0`,
`extra` = unexpected readable data. -/
inductive ProbeResult
  | wouldblock
  | eof
  | extra
deriving DecidableEq, Repr

/-- Outcome of one fresh `h2o_socket_connect` attempt: synchronous `NULL`
return, asynchronous failure reported to `on_connect`, or success. -/
inductive ConnOutcome
  | syncFail
  | asyncFail
  | asyncOk
deriving DecidableEq, Repr

/-- The environment of one connect request: probe results by fd, connect and
resolver outcomes and balancer selections by attempt number, fresh fds by
attempt number. -/
structure Oracle where
  probe : Nat → ProbeResult
  conn : Nat → ConnOutcome
  resolve : Nat → Option String
  select : Nat → Nat
  freshFd : Nat → Nat

/-- Observable events of a run: pool-wide counter updates, the `free` of the
request object, and the user callback with the socket and error string it
receives. -/
inductive Ev
  | addCount
  | subCount
  | freeReq (id : Nat)
  | cb (sock : Option Sock) (err : Option String)
deriving DecidableEq, Repr

/-- `h2o_socketpool_connect_request_t` (fields the model reads): identity of
the allocation, `sock`, `selected_target`, `remaining_try_count`, and the
`lb.tried` bitmap (`none` = `NULL`). -/
structure ConnReq where
  id : Nat
  sock : Option Sock
  selected_target : Nat
  remaining : Nat
  tried : Option (List Bool)
deriving DecidableEq, Repr

/-- Result of a full run of the state machine. -/
structure RunRes where
  pool : Pool
  trace : List Ev
  ab : Bool
deriving Repr

/-- Result of a single attempt: terminal, or an internal retry re-entering
`try_connect`. -/
inductive StepRes
  | done (pool : Pool) (trace : List Ev) (ab : Bool)
  | retry (pool : Pool) (req : ConnReq) (trace : List Ev)
deriving Repr

/-- `call_connect_cb`: free the tried bitmap and the request, then invoke
the callback with `req->sock` and the error string. -/
def call_connect_cb (req : ConnReq) (errstr : Option String) : List Ev :=
  [Ev.freeReq req.id, Ev.cb req.sock errstr]

/-- `on_close`: decrement the target's request count and the pool-wide
count. -/
def on_close (pool : Pool) (cd : OnCloseData) : Pool :=
  let p1 := decRequestCount pool cd.target
  { p1 with count := subW p1.count }

/-- Modelled from the spec: `h2o_socket_close` (socket.c, not under `src/`)
runs the socket's on-close hook, which decrements the counters recorded in
the attached `OnCloseData`. -/
def socket_close (pool : Pool) (s : Option Sock) : Pool × List Ev :=
  match s with
  | some ⟨_, some cd⟩ => (on_close pool cd, [Ev.subCount])
  | _ => (pool, [])

/-- `on_connect`: on failure decrement the selected target's request count,
close the socket (running its on-close hook), and either retry
(`remaining_try_count != 0`) or terminate with `"connection failed"`; on
success complete with a null error. -/
def on_connect_model (pool : Pool) (req : ConnReq) (failed : Bool) : StepRes :=
  if failed then
    let p1 := decRequestCount pool req.selected_target
    let pr := socket_close p1 req.sock
    if req.remaining = 0 then
      .done pr.1 (pr.2 ++ call_connect_cb { req with sock := none } (some "connection failed"))
        false
    else
      .retry pr.1 req pr.2
  else
    .done pool (call_connect_cb req none) false

/-- `start_connect`: issue `h2o_socket_connect`; on synchronous failure
decrement the pool-wide count and complete with `"failed to connect to
host"`; otherwise install the on-close data, record the socket in the
request, and hand over to `on_connect`. -/
def start_connect_model (pool : Pool) (req : ConnReq) (o : Oracle) (attempt : Nat) : StepRes :=
  match o.conn attempt with
  | .syncFail =>
    let req1 := { req with sock := none }
    .done { pool with count := subW pool.count }
      (Ev.subCount :: call_connect_cb req1 (some "failed to connect to host")) false
  | oc =>
    let sock : Sock := ⟨o.freshFd attempt, some ⟨pool.id, req.selected_target⟩⟩
    on_connect_model pool { req with sock := some sock } (oc == ConnOutcome.asyncFail)

/-- `on_getaddr`: on resolver failure decrement the pool-wide count and
complete with the resolver's error string verbatim; on success pick one
address and proceed to `start_connect`. -/
def on_getaddr_model (pool : Pool) (req : ConnReq) (o : Oracle) (attempt : Nat) : StepRes :=
  match o.resolve attempt with
  | some e =>
    .done { pool with count := subW pool.count } (Ev.subCount :: call_connect_cb req (some e))
      false
  | none => start_connect_model pool req o attempt

/-- The target-selection block at the top of `try_connect` (lines 363-373):
with a tried bitmap and a balancer, consult the selector (asserting the
pick is in range and untried — `none` models the `assert` firing), mark it
tried and increment its request count; with a bitmap but no balancer select
target 0; otherwise keep the pre-chosen target. -/
def lb_phase (pool : Pool) (req : ConnReq) (sel : Nat) : Option (Pool × ConnReq) :=
  match req.tried with
  | none => some (pool, req)
  | some tried =>
    if pool.hasBalancer then
      if sel < pool.targets.length ∧ tried.get? sel = some false then
        some (incRequestCount pool sel,
          { req with selected_target := sel, tried := some (tried.set sel true) })
      else none
    else some (pool, { req with selected_target := 0 })

/-- Result of the checkout loop of `try_connect`. -/
inductive FetchRes
  | reused (pool : Pool) (trace : List Ev)
  | emptied (pool : Pool)
  | stuck (pool : Pool)
deriving Repr

/-- The checkout loop of `try_connect` (lines 377-416): pop the head of the
selected target's chain, unlink it from both chains, probe it; if healthy
then import it, attach fresh on-close data, invoke the callback with a null
error, free the request; if dead, dispose it and continue.  The recursion
argument is the current per-target chain (each iteration unlinks exactly its
head).  `stuck` totalises a dangling id, unreachable from well-formed
states. -/
def try_fetch_go (req : ConnReq) (o : Oracle) : Pool → List Nat → FetchRes
  | pool, [] => .emptied pool
  | pool, id :: rest =>
    match entryAt pool id with
    | none => .stuck pool
    | some e =>
      let p1 := unlinkEntry pool id e.target
      match o.probe e.fd with
      | .wouldblock =>
        let p2 := removeEntry p1 id
        let sock : Sock := ⟨e.fd, some ⟨p2.id, e.target⟩⟩
        .reused p2 [Ev.cb (some sock) none, Ev.freeReq req.id]
      | _ => try_fetch_go req o (removeEntry p1 id) rest

/-- Prepend an event to a step result's trace. -/
def stepPrepend (ev : Ev) : StepRes → StepRes
  | .done p tr ab => .done p (ev :: tr) ab
  | .retry p r tr => .retry p r (ev :: tr)

/-- The body of `try_connect` for one attempt: decrement
`remaining_try_count` (calling with the counter at 0 would wrap the
`size_t`; no caller does, and the model aborts there), run the selection
block, the checkout loop, and — when the chain is exhausted — increment the
pool-wide count and connect afresh via the resolver (NAMED) or directly
(SOCKADDR). -/
def attempt_once (pool : Pool) (req : ConnReq) (o : Oracle) (attempt : Nat) : StepRes :=
  if req.remaining = 0 then .done pool [] true
  else
    let req1 := { req with remaining := req.remaining - 1 }
    match lb_phase pool req1 (o.select attempt) with
    | none => .done pool [] true
    | some pr =>
      let pool1 := pr.1
      let req2 := pr.2
      match try_fetch_go req2 o pool1 (idleOf pool1 req2.selected_target) with
      | .reused p2 tr => .done p2 tr false
      | .stuck p2 => .done p2 [] true
      | .emptied p2 =>
        let p3 := { p2 with count := addW p2.count }
        match (getTargetD p3 req2.selected_target).typ with
        | .NAMED => stepPrepend Ev.addCount (on_getaddr_model p3 req2 o attempt)
        | .SOCKADDR => stepPrepend Ev.addCount (start_connect_model p3 req2 o attempt)

/-- The retry loop through `on_connect -> try_connect`, driven by
`remaining_try_count` as fuel (each attempt decrements it by exactly one,
and a retry is only issued while it is nonzero, so the fuel never runs out
before the machine itself stops; at fuel 0 both agree on the aborting
0-decrement case). -/
def try_connect_go (o : Oracle) : Nat → Pool → ConnReq → Nat → RunRes
  | 0, pool, _, _ => ⟨pool, [], true⟩
  | fuel + 1, pool, req, attempt =>
    match attempt_once pool req o attempt with
    | .done p tr ab => ⟨p, tr, ab⟩
    | .retry p req1 tr =>
      let r := try_connect_go o fuel p req1 (attempt + 1)
      ⟨r.pool, tr ++ r.trace, r.ab⟩

/-- `try_connect`, run to completion of the whole request. -/
def try_connect (pool : Pool) (req : ConnReq) (o : Oracle) (attempt : Nat) : RunRes :=
  try_connect_go o req.remaining pool req attempt

/-- Result of the critical section at the top of `h2o_socketpool_connect`. -/
inductive SelRes
  | ab (pool : Pool)
  | ok (pool : Pool) (tgt : Option Nat)
deriving Repr

/-- Lines 479-493 of `h2o_socketpool_connect`: under the mutex run
`destroy_expired`; on a global pool look the URL up, adding a target on a
miss; then `assert(pool->targets.size != 0)` (`ab` models the assert
firing). -/
def connect_select_target (pool : Pool) (url : URL) (now : Nat) : SelRes :=
  let p1 := destroy_expired pool now
  let pt : Pool × Option Nat :=
    if p1.is_global then
      match lookup_target p1 url with
      | some i => (p1, some i)
      | none =>
        let an := add_target p1 url
        (an.1, some an.2)
    else (p1, none)
  if pt.1.targets.length = 0 then .ab pt.1 else .ok pt.1 pt.2

/-- The pool state carried by a `SelRes`. -/
def selPool : SelRes → Pool
  | .ab p => p
  | .ok p _ => p

/-- Result of `h2o_socketpool_connect`: the final content of `*_req` (for a
non-NULL `_req`), the final pool, the event trace, and whether an assert
fired. -/
structure ConnectRes where
  outReq : Option Nat
  pool : Pool
  trace : List Ev
  ab : Bool
deriving Repr

/-- `h2o_socketpool_connect`: `*_req = NULL`; select the target scope;
allocate the request (`reqId` names the allocation), store it into `*_req`,
set `remaining_try_count` (1 for a global pool, `targets.size` plus a zeroed
tried bitmap otherwise; `selected_target` starts at `SIZE_MAX` in the
latter case), and enter `try_connect`.  `*_req` is never written again. -/
def h2o_socketpool_connect (pool : Pool) (url : URL) (now : Nat) (reqId : Nat) (o : Oracle) :
    ConnectRes :=
  match connect_select_target pool url now with
  | .ab p => ⟨none, p, [], true⟩
  | .ok p tgt =>
    let req : ConnReq :=
      match tgt with
      | some i => ⟨reqId, none, i, 1, none⟩
      | none => ⟨reqId, none, W - 1, p.targets.length, some (List.replicate p.targets.length false)⟩
    let r := try_connect p req o 0
    ⟨some reqId, r.pool, r.trace, r.ab⟩

/-- Result of `h2o_socketpool_return`: `aborted` = the `assert` fired (the C
process dies before touching any pool state), `exportFail` = the -1 path,
`ok` = the 0 path with the id of the inserted entry. -/
inductive RetRes
  | aborted (pool : Pool)
  | exportFail (pool : Pool)
  | ok (pool : Pool) (entryId : Nat)
deriving Repr

/-- `h2o_socketpool_return`: read the on-close data,
`assert(close_data->pool == pool)`, decrement the target's request count,
clear the hook, export the socket (`exportOk` is the export's success; on
failure free the entry, decrement the pool-wide count and return -1);
otherwise build the entry stamped `now`, run `destroy_expired`, and insert
it at the tail of the pool-wide chain and at the tail of its target's
chain. -/
def h2o_socketpool_return (pool : Pool) (sock : Sock) (now : Nat) (exportOk : Bool) : RetRes :=
  match sock.closeData with
  | none => .aborted pool
  | some cd =>
    if cd.poolId ≠ pool.id then .aborted pool
    else
      let p1 := decRequestCount pool cd.target
      if exportOk = false then .exportFail { p1 with count := subW p1.count }
      else
        let id := p1.nextEntryId
        let e : PoolEntry := ⟨sock.fd, cd.target, now⟩
        let p2 := { p1 with entries := p1.entries ++ [(id, e)], nextEntryId := id + 1 }
        let p3 := destroy_expired p2 now
        let p4 := { p3 with sockets := p3.sockets ++ [id] }
        let p5 := modifyTarget p4 cd.target (fun t => { t with idle := t.idle ++ [id] })
        .ok p5 id

/-- Names the intermediate state of `h2o_socketpool_return`'s success path:
the pool after the request-count decrement with the fresh entry allocated
(`p2` of the source, right before its `destroy_expired` call). -/
def returnMid (pool : Pool) (fdv tgt now : Nat) : Pool :=
  let p1 := decRequestCount pool tgt
  { p1 with
    entries := p1.entries ++ [(p1.nextEntryId, ⟨fdv, tgt, now⟩)],
    nextEntryId := p1.nextEntryId + 1 }

/-- Names the final insertion of `h2o_socketpool_return`: the new id goes to
the tail of the pool-wide chain and the tail of its target's chain. -/
def returnFin (q : Pool) (tgt newId : Nat) : Pool :=
  modifyTarget { q with sockets := q.sockets ++ [newId] } tgt
    (fun t => { t with idle := t.idle ++ [newId] })

/-- `h2o_socketpool_can_keepalive`. -/
def h2o_socketpool_can_keepalive (pool : Pool) : Bool := decide (0 < pool.timeout)

/-- The pool state carried by a `RetRes`. -/
def retPool : RetRes → Pool
  | .aborted p => p
  | .exportFail p => p
  | .ok p _ => p

/-- The C return value of `h2o_socketpool_return` (`none` = the assert
fired). -/
def retCode : RetRes → Option Int
  | .aborted _ => none
  | .exportFail _ => some (-1)
  | .ok _ _ => some 0

/-- Whether the assert in `h2o_socketpool_return` fired. -/
def retAborted : RetRes → Bool
  | .aborted _ => true
  | _ => false

/-- Event classifiers and counters over traces. -/
def isCbEv : Ev → Bool
  | .cb _ _ => true
  | _ => false

def isFreeEv : Ev → Bool
  | .freeReq _ => true
  | _ => false

def countCb (tr : List Ev) : Nat := tr.countP (fun e => isCbEv e)

def countFree (tr : List Ev) : Nat := tr.countP (fun e => isFreeEv e)

def noCF (tr : List Ev) : Bool := tr.all (fun e => !isCbEv e && !isFreeEv e)

/-- The error strings the spec allows a callback to carry: null, the two
literals, or a string the resolver reported. -/
def allowedErr (o : Oracle) (err : Option String) : Prop :=
  err = none ∨ err = some "failed to connect to host" ∨ err = some "connection failed" ∨
    ∃ k e, o.resolve k = some e ∧ err = some e

/-- A callback socket, when present, carries on-close data naming pool
`pid`. -/
def sockFromPool (pid : Nat) : Option Sock → Prop
  | none => True
  | some s => ∃ cd, s.closeData = some cd ∧ cd.poolId = pid

/-- Two pool states with the same identity and the same target vector up to
the per-target mutable fields (idle chain, request count): the state-machine
steps never change the pool id, the number of targets, or any target's
URL. -/
def sameShape (p q : Pool) : Prop :=
  p.id = q.id ∧ p.targets.map (fun t => t.url) = q.targets.map (fun t => t.url)

/-- Shape of a completed (non-aborted) run's trace: counter noise, then one
`free` of request `rid` and one callback, in either order (the checkout path
calls the callback before freeing, `call_connect_cb` frees first), the
callback's error allowed and its socket stamped with pool `pid`. -/
def TermTrace (rid pid : Nat) (o : Oracle) (tr : List Ev) : Prop :=
  ∃ pre s err, noCF pre = true ∧ allowedErr o err ∧ sockFromPool pid s ∧
    (tr = pre ++ [Ev.cb s err, Ev.freeReq rid] ∨ tr = pre ++ [Ev.freeReq rid, Ev.cb s err])

/-- `added_at` of the entry behind an id (0 for a dangling id). -/
def agedOf (pool : Pool) (id : Nat) : Nat := ((entryAt pool id).getD ⟨0, 0, 0⟩).added_at

/-- The expiration test of `destroy_expired` on one id. -/
def expiredB (pool : Pool) (cutoff : Nat) (id : Nat) : Bool := decide (agedOf pool id ≤ cutoff)

/-- `destroy_expired` is inert: either no loop is registered, or no entry in
the pool-wide chain has reached the cutoff. -/
def expiryInert (pool : Pool) (now : Nat) : Prop :=
  pool.loopRegistered = false ∨
    ∀ id ∈ pool.sockets, (now + (W - pool.timeout % W)) % W < agedOf pool id

/-- The pool state carried by a `StepRes`. -/
def stepPool : StepRes → Pool
  | .done p _ _ => p
  | .retry p _ _ => p

/-- The pool state carried by a `FetchRes`. -/
def fetchPool : FetchRes → Pool
  | .reused p _ => p
  | .emptied p => p
  | .stuck p => p

/-! ### Concrete fixtures used by witness and counterexample theorems -/

/-- The http scheme (default port 80). -/
def schemeHttp : Scheme := ⟨1, 80⟩

/-- `http://h/` — host is the single byte `h` (104). -/
def urlH : URL := ⟨schemeHttp, [104], 65535, [104], [47]⟩

/-- An oracle whose probes always report a healthy connection, whose fresh
connects succeed, and whose resolver never fails. -/
def oLive : Oracle :=
  ⟨fun _ => .wouldblock, fun _ => .asyncOk, fun _ => none, fun _ => 0, fun n => 90 + n⟩

/-- An oracle whose `h2o_socket_connect` fails synchronously. -/
def oSync : Oracle :=
  ⟨fun _ => .wouldblock, fun _ => .syncFail, fun _ => none, fun _ => 0, fun n => 90 + n⟩

/-- Global pool, one SOCKADDR target with one live idle entry (fd 42),
request count 0, no loop registered. -/
def poolC1 : Pool :=
  ⟨0, [⟨urlH, .SOCKADDR, [0], 0⟩], [0], [(0, ⟨42, 0, 50⟩)], 1, 2000, true, false, false, 1⟩

/-- Global pool whose target 0 already holds an older idle entry (id 5,
fd 10), request count 3. -/
def poolC2 : Pool :=
  ⟨0, [⟨urlH, .SOCKADDR, [5], 3⟩], [5], [(5, ⟨10, 0, 60⟩)], 4, 2000, true, false, false, 7⟩

/-- A socket handed out by pool 0 for target 0, fd 42. -/
def sockS : Sock := ⟨42, some ⟨0, 0⟩⟩

/-- A socket carrying on-close data of a different pool (id 9). -/
def sockBad : Sock := ⟨42, some ⟨9, 0⟩⟩

/-- Pool with a registered loop, timeout 10, and two idle entries: id 1 aged
5 (expired at now = 1000) and id 2 aged 999 (fresh). -/
def poolC4 : Pool :=
  ⟨0, [⟨urlH, .SOCKADDR, [1, 2], 0⟩], [1, 2], [(1, ⟨10, 0, 5⟩), (2, ⟨11, 0, 999⟩)], 5, 10,
    true, true, false, 3⟩

/-- Empty global pool. -/
def poolG : Pool := ⟨0, [], [], [], 0, 2000, true, false, false, 0⟩

/-- Global pool with one SOCKADDR target and no idle entries. -/
def poolE : Pool :=
  ⟨0, [⟨urlH, .SOCKADDR, [], 2⟩], [], [], 3, 2000, true, false, false, 4⟩

/-- Pool with a balancer and one target, used to exercise the selection
increment. -/
def poolB : Pool := ⟨0, [⟨urlH, .SOCKADDR, [], 0⟩], [], [], 0, 2000, false, false, true, 0⟩

/-- A specific-pool request with a zeroed tried bitmap over one target. -/
def reqB : ConnReq := ⟨3, none, 0, 2, some [false]⟩

/-- A request whose socket carries on-close data of pool 0, target 0, with no
retries left. -/
def reqE : ConnReq := ⟨7, some ⟨42, some ⟨0, 0⟩⟩, 0, 0, none⟩

/-- A bare request used to drive the checkout loop directly. -/
def reqF : ConnReq := ⟨9, none, 0, 0, none⟩

/-- A second socket handed out by pool 0 for target 0, fd 43. -/
def sockT : Sock := ⟨43, some ⟨0, 0⟩⟩

/-! ### Theorems -/

/-! #### Preservation lemmas for the elementary state updates -/

theorem subWn_succ_out (x n : Nat) : subWn x (n + 1) = subW (subWn x n) := rfl

theorem subWn_shift (x n : Nat) : subWn (subW x) n = subW (subWn x n) := by
  induction n with
  | zero => rfl
  | succ n ih =>
    show subW (subWn (subW x) n) = subW (subWn x (n + 1))
    rw [ih, subWn_succ_out]

theorem subWn_succ (x n : Nat) : subWn x (n + 1) = subWn (subW x) n := by
  rw [subWn_shift]
  exact subWn_succ_out x n

theorem sameShape_refl (p : Pool) : sameShape p p := ⟨rfl, rfl⟩

theorem sameShape_trans {p q r : Pool} (h1 : sameShape p q) (h2 : sameShape q r) :
    sameShape p r := ⟨h1.1.trans h2.1, h1.2.trans h2.2⟩

theorem modifyTarget_id (p : Pool) (i : Nat) (f : Target → Target) :
    (modifyTarget p i f).id = p.id := by
  unfold modifyTarget; cases p.targets.get? i <;> rfl

theorem modifyTarget_length (p : Pool) (i : Nat) (f : Target → Target) :
    (modifyTarget p i f).targets.length = p.targets.length := by
  unfold modifyTarget; cases p.targets.get? i <;> simp

theorem set_same {α : Type} : ∀ (l : List α) (i : Nat) (x : α), l.get? i = some x →
    l.set i x = l
  | [], _, _, h => by cases h
  | a :: l, 0, x, h => by
    simp only [List.get?_cons_zero, Option.some.injEq] at h
    rw [List.set_cons_zero, h]
  | a :: l, i + 1, x, h => by
    rw [List.set_cons_succ]
    exact congrArg (a :: ·) (set_same l i x h)

theorem modifyTarget_map_url (p : Pool) (i : Nat) (f : Target → Target)
    (hf : ∀ t, (f t).url = t.url) :
    (modifyTarget p i f).targets.map (fun t => t.url) = p.targets.map (fun t => t.url) := by
  unfold modifyTarget
  cases hg : p.targets.get? i with
  | none => rfl
  | some t =>
    show (List.set p.targets i (f t)).map (fun t => t.url) = _
    rw [List.map_set, hf t]
    refine set_same _ i t.url ?_
    rw [List.get?_map, hg]
    rfl

theorem modifyTarget_sameShape (p : Pool) (i : Nat) (f : Target → Target)
    (hf : ∀ t, (f t).url = t.url) : sameShape (modifyTarget p i f) p :=
  ⟨modifyTarget_id p i f, modifyTarget_map_url p i f hf⟩

theorem sameShape_length {p q : Pool} (h : sameShape p q) :
    p.targets.length = q.targets.length := by
  have := congrArg List.length h.2
  simpa using this

theorem modifyTarget_count (p : Pool) (i : Nat) (f : Target → Target) :
    (modifyTarget p i f).count = p.count := by
  unfold modifyTarget; cases p.targets.get? i <;> rfl

theorem modifyTarget_sockets (p : Pool) (i : Nat) (f : Target → Target) :
    (modifyTarget p i f).sockets = p.sockets := by
  unfold modifyTarget; cases p.targets.get? i <;> rfl

theorem modifyTarget_entries (p : Pool) (i : Nat) (f : Target → Target) :
    (modifyTarget p i f).entries = p.entries := by
  unfold modifyTarget; cases p.targets.get? i <;> rfl

theorem entryAt_modifyTarget (p : Pool) (i : Nat) (f : Target → Target) (id : Nat) :
    entryAt (modifyTarget p i f) id = entryAt p id := by
  unfold entryAt; rw [modifyTarget_entries]

theorem getTargetD_modifyTarget_self (p : Pool) (i : Nat) (f : Target → Target)
    (h : i < p.targets.length) :
    getTargetD (modifyTarget p i f) i = f (getTargetD p i) := by
  unfold modifyTarget getTargetD
  cases hg : p.targets.get? i with
  | none =>
    have hlen := List.get?_eq_none.1 hg
    omega
  | some t =>
    simp only [List.get?_set_eq_of_lt _ (by simpa using h), hg, Option.getD_some]

theorem getTargetD_modifyTarget_ne (p : Pool) (i j : Nat) (f : Target → Target)
    (h : i ≠ j) : getTargetD (modifyTarget p i f) j = getTargetD p j := by
  unfold modifyTarget getTargetD
  cases hg : p.targets.get? i with
  | none => rfl
  | some t => simp only [List.get?_set_ne _ _ h]

theorem rcOf_incRequestCount_self (p : Pool) (i : Nat) (h : i < p.targets.length) :
    rcOf (incRequestCount p i) i = addW (rcOf p i) := by
  unfold rcOf incRequestCount; rw [getTargetD_modifyTarget_self p i _ h]

theorem rcOf_decRequestCount_self (p : Pool) (i : Nat) (h : i < p.targets.length) :
    rcOf (decRequestCount p i) i = subW (rcOf p i) := by
  unfold rcOf decRequestCount; rw [getTargetD_modifyTarget_self p i _ h]

theorem rcOf_modifyTarget_idle (p : Pool) (i j : Nat) (f : List Nat → List Nat) :
    rcOf (modifyTarget p i (fun t => { t with idle := f t.idle })) j = rcOf p j := by
  unfold rcOf
  rcases eq_or_ne i j with rfl | hne
  · rcases Nat.lt_or_ge i p.targets.length with h | h
    · rw [getTargetD_modifyTarget_self p i _ h]
    · unfold modifyTarget
      rw [List.get?_eq_none.2 h]
  · rw [getTargetD_modifyTarget_ne p i j _ hne]

theorem decRequestCount_entries (p : Pool) (i : Nat) :
    (decRequestCount p i).entries = p.entries := by
  unfold decRequestCount
  rw [modifyTarget_entries]

theorem idleOf_modifyTarget_rc (p : Pool) (i j : Nat) (f : Nat → Nat) :
    idleOf (modifyTarget p i (fun t => { t with request_count := f t.request_count })) j =
      idleOf p j := by
  unfold idleOf
  rcases eq_or_ne i j with rfl | hne
  · rcases Nat.lt_or_ge i p.targets.length with h | h
    · rw [getTargetD_modifyTarget_self p i _ h]
    · unfold modifyTarget
      rw [List.get?_eq_none.2 h]
  · rw [getTargetD_modifyTarget_ne p i j _ hne]

theorem rcOf_unlinkEntry (p : Pool) (id tgt j : Nat) :
    rcOf (unlinkEntry p id tgt) j = rcOf p j := by
  unfold unlinkEntry
  show rcOf (modifyTarget { p with sockets := p.sockets.erase id } tgt
      (fun t => { t with idle := t.idle.erase id })) j = rcOf p j
  exact rcOf_modifyTarget_idle _ tgt j (fun l => l.erase id)

theorem rcOf_removeEntry (p : Pool) (id j : Nat) : rcOf (removeEntry p id) j = rcOf p j := rfl

theorem unlinkEntry_id (p : Pool) (id tgt : Nat) : (unlinkEntry p id tgt).id = p.id := by
  unfold unlinkEntry; rw [modifyTarget_id]

theorem unlinkEntry_length (p : Pool) (id tgt : Nat) :
    (unlinkEntry p id tgt).targets.length = p.targets.length := by
  unfold unlinkEntry; rw [modifyTarget_length]

theorem unlinkEntry_count (p : Pool) (id tgt : Nat) : (unlinkEntry p id tgt).count = p.count := by
  unfold unlinkEntry; rw [modifyTarget_count]

theorem unlinkEntry_entries (p : Pool) (id tgt : Nat) :
    (unlinkEntry p id tgt).entries = p.entries := by
  unfold unlinkEntry; rw [modifyTarget_entries]

theorem find?_entries_filter_ne (id id' : Nat) (h : id' ≠ id) :
    ∀ l : List (Nat × PoolEntry),
      (l.filter (fun pr => !(pr.1 == id))).find? (fun pr => pr.1 == id') =
        l.find? (fun pr => pr.1 == id') := by
  intro l
  induction l with
  | nil => rfl
  | cons a l ih =>
    by_cases ha : a.1 = id
    · rw [List.filter_cons_of_neg (by simp [ha])]
      rw [List.find?_cons_of_neg _ (by simp [ha]; exact fun hc => h hc.symm)]
      exact ih
    · rw [List.filter_cons_of_pos (by simp [ha])]
      by_cases ha' : a.1 = id'
      · rw [List.find?_cons_of_pos _ (by simp [ha']), List.find?_cons_of_pos _ (by simp [ha'])]
      · rw [List.find?_cons_of_neg _ (by simp [ha']), List.find?_cons_of_neg _ (by simp [ha'])]
        exact ih

theorem entryAt_removeEntry_ne (p : Pool) (id id' : Nat) (h : id' ≠ id) :
    entryAt (removeEntry p id) id' = entryAt p id' := by
  unfold entryAt removeEntry
  simp only
  rw [find?_entries_filter_ne id id' h]

theorem expireIds_id (eb : Nat) : ∀ (l : List Nat) (p : Pool), (expireIds eb p l).id = p.id := by
  intro l
  induction l with
  | nil => intro p; rfl
  | cons id rest ih =>
    intro p
    unfold expireIds
    cases entryAt p id with
    | none => rfl
    | some e =>
      simp only
      split
      · rfl
      · rw [ih]
        simp [removeEntry, unlinkEntry_id]

theorem expireIds_length (eb : Nat) :
    ∀ (l : List Nat) (p : Pool), (expireIds eb p l).targets.length = p.targets.length := by
  intro l
  induction l with
  | nil => intro p; rfl
  | cons id rest ih =>
    intro p
    unfold expireIds
    cases entryAt p id with
    | none => rfl
    | some e =>
      simp only
      split
      · rfl
      · rw [ih]
        simp [removeEntry, unlinkEntry_length]

theorem destroy_expired_id (p : Pool) (now : Nat) : (destroy_expired p now).id = p.id := by
  unfold destroy_expired; split
  · rfl
  · exact expireIds_id _ _ _

theorem destroy_expired_length (p : Pool) (now : Nat) :
    (destroy_expired p now).targets.length = p.targets.length := by
  unfold destroy_expired; split
  · rfl
  · exact expireIds_length _ _ _

theorem removeEntry_sameShape (p : Pool) (id : Nat) : sameShape (removeEntry p id) p :=
  ⟨rfl, rfl⟩

theorem unlinkEntry_sameShape (p : Pool) (id tgt : Nat) : sameShape (unlinkEntry p id tgt) p := by
  unfold unlinkEntry
  exact ⟨modifyTarget_id _ _ _, modifyTarget_map_url _ _ _ (fun t => rfl)⟩

theorem incRequestCount_sameShape (p : Pool) (i : Nat) : sameShape (incRequestCount p i) p :=
  modifyTarget_sameShape p i _ (fun t => rfl)

theorem decRequestCount_sameShape (p : Pool) (i : Nat) : sameShape (decRequestCount p i) p :=
  modifyTarget_sameShape p i _ (fun t => rfl)

theorem decRequestCount_id (p : Pool) (i : Nat) : (decRequestCount p i).id = p.id :=
  modifyTarget_id p i _

theorem decRequestCount_length (p : Pool) (i : Nat) :
    (decRequestCount p i).targets.length = p.targets.length :=
  modifyTarget_length p i _

theorem update_count_id (p : Pool) (c : Nat) : ({ p with count := c } : Pool).id = p.id := by
  cases p; rfl

theorem update_count_targets (p : Pool) (c : Nat) :
    ({ p with count := c } : Pool).targets = p.targets := by
  cases p; rfl

theorem update_count_sockets (p : Pool) (c : Nat) :
    ({ p with count := c } : Pool).sockets = p.sockets := by
  cases p; rfl

theorem update_count_entries (p : Pool) (c : Nat) :
    ({ p with count := c } : Pool).entries = p.entries := by
  cases p; rfl

theorem update_count_count (p : Pool) (c : Nat) : ({ p with count := c } : Pool).count = c := by
  cases p; rfl

theorem update_count_timeout (p : Pool) (c : Nat) :
    ({ p with count := c } : Pool).timeout = p.timeout := by
  cases p; rfl

theorem on_close_sameShape (p : Pool) (cd : OnCloseData) : sameShape (on_close p cd) p := by
  unfold on_close
  have h := decRequestCount_sameShape p cd.target
  refine ⟨(update_count_id _ _).trans h.1, ?_⟩
  rw [update_count_targets]
  exact h.2

theorem targetUpdate_idle_idle (t : Target) (l : List Nat) :
    ({ t with idle := l } : Target).idle = l := by
  cases t; rfl

theorem update_sockets_targets (p : Pool) (l : List Nat) :
    ({ p with sockets := l } : Pool).targets = p.targets := by
  cases p; rfl

theorem modifyTarget_oob (p : Pool) (i : Nat) (f : Target → Target)
    (h : p.targets.length ≤ i) : modifyTarget p i f = p := by
  unfold modifyTarget
  rw [List.get?_eq_none.2 h]

theorem entryAt_removeEntry_self (p : Pool) (id : Nat) : entryAt (removeEntry p id) id = none := by
  unfold entryAt removeEntry
  dsimp only
  have hf : (p.entries.filter fun pr => !(pr.1 == id)).find? (fun pr => pr.1 == id) = none := by
    rw [List.find?_eq_none]
    intro x hx
    have hmem := (List.mem_filter.1 hx).2
    simp only [Bool.not_eq_true'] at hmem
    simp [hmem]
  rw [hf]
  rfl

theorem entryAt_removeEntry_none (p : Pool) (id' id : Nat) (h : entryAt p id = none) :
    entryAt (removeEntry p id') id = none := by
  unfold entryAt removeEntry at *
  dsimp only at *
  cases hf : p.entries.find? (fun pr => pr.1 == id) with
  | some v => rw [hf] at h; cases h
  | none =>
    have hnone := List.find?_eq_none.1 hf
    have hres : (p.entries.filter fun pr => !(pr.1 == id')).find? (fun pr => pr.1 == id) = none := by
      rw [List.find?_eq_none]
      intro x hx
      exact hnone x (List.mem_filter.1 hx).1
    rw [hres]
    rfl

theorem entryAt_unlinkEntry (p : Pool) (id tgt id' : Nat) :
    entryAt (unlinkEntry p id tgt) id' = entryAt p id' := by
  unfold entryAt
  rw [unlinkEntry_entries]

theorem idleOf_update_count (p : Pool) (c i : Nat) :
    idleOf ({ p with count := c } : Pool) i = idleOf p i := by
  unfold idleOf getTargetD
  rw [update_count_targets]

theorem idleOf_removeEntry (p : Pool) (id i : Nat) : idleOf (removeEntry p id) i = idleOf p i :=
  rfl

theorem idleOf_unlinkEntry_self (p : Pool) (id tgt : Nat) (h : tgt < p.targets.length) :
    idleOf (unlinkEntry p id tgt) tgt = (idleOf p tgt).erase id := by
  unfold unlinkEntry idleOf
  have h' : tgt < ({ p with sockets := p.sockets.erase id } : Pool).targets.length := h
  rw [getTargetD_modifyTarget_self _ _ _ h', targetUpdate_idle_idle]
  rfl

theorem idleOf_unlinkEntry_ne (p : Pool) (id tgt i : Nat) (h : tgt ≠ i) :
    idleOf (unlinkEntry p id tgt) i = idleOf p i := by
  unfold unlinkEntry idleOf
  rw [getTargetD_modifyTarget_ne _ _ _ _ h]
  rfl

theorem idleOf_unlinkEntry_oob (p : Pool) (id tgt : Nat) (h : p.targets.length ≤ tgt) (i : Nat) :
    idleOf (unlinkEntry p id tgt) i = idleOf p i := by
  unfold unlinkEntry
  rw [modifyTarget_oob _ _ _ (by simpa using h)]
  rfl

theorem takeWhile_congr {α : Type} (p q : α → Bool) :
    ∀ l : List α, (∀ x ∈ l, p x = q x) → l.takeWhile p = l.takeWhile q := by
  intro l
  induction l with
  | nil => intro _; rfl
  | cons a l ih =>
    intro h
    simp only [List.takeWhile_cons]
    rw [h a (List.mem_cons_self a l), ih (fun x hx => h x (List.mem_cons_of_mem a hx))]

theorem dropWhile_congr {α : Type} (p q : α → Bool) :
    ∀ l : List α, (∀ x ∈ l, p x = q x) → l.dropWhile p = l.dropWhile q := by
  intro l
  induction l with
  | nil => intro _; rfl
  | cons a l ih =>
    intro h
    simp only [List.dropWhile_cons]
    rw [h a (List.mem_cons_self a l), ih (fun x hx => h x (List.mem_cons_of_mem a hx))]

theorem entryAt_update_count (p : Pool) (c id : Nat) :
    entryAt ({ p with count := c } : Pool) id = entryAt p id := by
  unfold entryAt
  rw [update_count_entries]

theorem expireIds_entry_none (eb : Nat) :
    ∀ (l : List Nat) (p : Pool) (id : Nat), entryAt p id = none →
      entryAt (expireIds eb p l) id = none := by
  intro l
  induction l with
  | nil => intro p id h; exact h
  | cons id' rest ih =>
    intro p id h
    unfold expireIds
    cases he : entryAt p id' with
    | none => exact h
    | some e =>
      dsimp only
      split
      · exact h
      · refine ih _ id ?_
        rw [entryAt_update_count]
        refine entryAt_removeEntry_none _ _ _ ?_
        rw [entryAt_unlinkEntry]
        exact h

theorem expireIds_idle_not_mem (eb : Nat) :
    ∀ (l : List Nat) (p : Pool) (i id : Nat), id ∉ idleOf p i →
      id ∉ idleOf (expireIds eb p l) i := by
  intro l
  induction l with
  | nil => intro p i id h; exact h
  | cons id' rest ih =>
    intro p i id h
    unfold expireIds
    cases he : entryAt p id' with
    | none => exact h
    | some e =>
      dsimp only
      split
      · exact h
      · refine ih _ i id ?_
        rw [idleOf_update_count, idleOf_removeEntry]
        by_cases hlt : e.target < p.targets.length
        · by_cases heq : e.target = i
          · subst heq
            rw [idleOf_unlinkEntry_self _ _ _ hlt]
            intro hmem
            exact h (List.mem_of_mem_erase hmem)
          · rw [idleOf_unlinkEntry_ne _ _ _ _ heq]
            exact h
        · rw [idleOf_unlinkEntry_oob _ _ _ (Nat.le_of_not_lt hlt)]
          exact h

theorem expireIds_spec (eb : Nat) :
    ∀ (l : List Nat) (p : Pool),
      p.sockets = l → l.Nodup →
      (∀ id ∈ l, (entryAt p id).isSome) →
      (∀ i, (idleOf p i).Nodup) →
      (∀ i id, id ∈ idleOf p i → ∃ e, entryAt p id = some e ∧ e.target = i) →
      (expireIds eb p l).sockets = l.dropWhile (expiredB p eb) ∧
      (expireIds eb p l).count = subWn p.count (l.takeWhile (expiredB p eb)).length ∧
      (∀ id ∈ l.takeWhile (expiredB p eb),
        entryAt (expireIds eb p l) id = none ∧ ∀ i, id ∉ idleOf (expireIds eb p l) i) ∧
      (∀ id ∈ l.dropWhile (expiredB p eb),
        entryAt (expireIds eb p l) id = entryAt p id ∧
        ∀ i, (id ∈ idleOf (expireIds eb p l) i ↔ id ∈ idleOf p i)) := by
  intro l
  induction l with
  | nil =>
    intro p hsync hnd hres hind hcons
    refine ⟨hsync, rfl, ?_, ?_⟩
    · intro x hx
      simp at hx
    · intro x hx
      simp at hx
  | cons id rest ih =>
    intro p hsync hnd hres hind hcons
    have hsome := hres id (List.mem_cons_self id rest)
    cases he : entryAt p id with
    | none => rw [he] at hsome; cases hsome
    | some e =>
      have hhead : id ∉ rest := (List.nodup_cons.1 hnd).1
      have hndr : rest.Nodup := (List.nodup_cons.1 hnd).2
      by_cases hexp : eb < e.added_at
      · -- head not expired: nothing removed
        have hpred : expiredB p eb id = false := by
          unfold expiredB agedOf
          rw [he]
          simp only [Option.getD_some]
          exact decide_eq_false (by omega)
        have hstop : expireIds eb p (id :: rest) = p := by
          unfold expireIds
          rw [he]
          dsimp only
          rw [if_pos hexp]
        have htk : (id :: rest).takeWhile (expiredB p eb) = [] := by
          simp [List.takeWhile_cons, hpred]
        have hdp : (id :: rest).dropWhile (expiredB p eb) = id :: rest := by
          simp [List.dropWhile_cons, hpred]
        rw [hstop, htk, hdp]
        refine ⟨hsync, rfl, ?_, ?_⟩
        · intro x hx
          simp at hx
        · intro x hx
          exact ⟨rfl, fun i => Iff.rfl⟩
      · -- head expired: it is removed and the loop continues
        have hpred : expiredB p eb id = true := by
          unfold expiredB agedOf
          rw [he]
          simp only [Option.getD_some]
          exact decide_eq_true (by omega)
        set p1 := unlinkEntry p id e.target with hp1
        set p2 := ({ removeEntry p1 id with
          count := subW (removeEntry p1 id).count } : Pool) with hp2
        have hstep : expireIds eb p (id :: rest) = expireIds eb p2 rest := by
          conv_lhs => unfold expireIds
          rw [he]
          dsimp only
          rw [if_neg hexp, hp2, hp1]
        -- entry lookups in p2 agree with p away from the head id
        have hentry2 : ∀ x, x ≠ id → entryAt p2 x = entryAt p x := by
          intro x hx
          rw [hp2, entryAt_update_count, entryAt_removeEntry_ne _ _ _ hx, hp1,
            entryAt_unlinkEntry]
        have hentryid : entryAt p2 id = none := by
          rw [hp2, entryAt_update_count]
          exact entryAt_removeEntry_self _ _
        -- idle chains of p2: the head id is gone, everything else untouched
        have hidle2 : ∀ i x, x ≠ id → (x ∈ idleOf p2 i ↔ x ∈ idleOf p i) := by
          intro i x hx
          rw [hp2, idleOf_update_count, idleOf_removeEntry]
          by_cases hlt : e.target < p.targets.length
          · by_cases heq : e.target = i
            · subst heq
              rw [hp1, idleOf_unlinkEntry_self _ _ _ hlt]
              exact List.mem_erase_of_ne hx
            · rw [hp1, idleOf_unlinkEntry_ne _ _ _ _ heq]
          · rw [hp1, idleOf_unlinkEntry_oob _ _ _ (Nat.le_of_not_lt hlt)]
        have hidleid : ∀ i, id ∉ idleOf p2 i := by
          intro i
          rw [hp2, idleOf_update_count, idleOf_removeEntry]
          by_cases hlt : e.target < p.targets.length
          · by_cases heq : e.target = i
            · subst heq
              rw [hp1, idleOf_unlinkEntry_self _ _ _ hlt]
              exact (List.Nodup.mem_erase_iff (hind e.target)).not.2 (by simp)
            · rw [hp1, idleOf_unlinkEntry_ne _ _ _ _ heq]
              intro hmem
              obtain ⟨e', he', ht'⟩ := hcons i id hmem
              rw [he] at he'
              cases he'
              exact heq ht'
          · rw [hp1, idleOf_unlinkEntry_oob _ _ _ (Nat.le_of_not_lt hlt)]
            intro hmem
            obtain ⟨e', he', ht'⟩ := hcons i id hmem
            rw [he] at he'
            cases he'
            have : i < p.targets.length := by
              by_contra hge
              have : idleOf p i = [] := by
                unfold idleOf getTargetD
                rw [List.get?_eq_none.2 (Nat.le_of_not_lt hge)]
                rfl
              rw [this] at hmem
              cases hmem
            omega
        -- the hypotheses hold for the recursive state
        have hsync2 : p2.sockets = rest := by
          rw [hp2, update_count_sockets]
          show p1.sockets = rest
          rw [hp1]
          unfold unlinkEntry
          rw [modifyTarget_sockets]
          show p.sockets.erase id = rest
          rw [hsync, List.erase_cons_head]
        have hres2 : ∀ x ∈ rest, (entryAt p2 x).isSome := by
          intro x hx
          have hne : x ≠ id := fun hxe => hhead (hxe ▸ hx)
          rw [hentry2 x hne]
          exact hres x (List.mem_cons_of_mem id hx)
        have hind2 : ∀ i, (idleOf p2 i).Nodup := by
          intro i
          rw [hp2, idleOf_update_count, idleOf_removeEntry]
          by_cases hlt : e.target < p.targets.length
          · by_cases heq : e.target = i
            · subst heq
              rw [hp1, idleOf_unlinkEntry_self _ _ _ hlt]
              exact List.Nodup.erase id (hind e.target)
            · rw [hp1, idleOf_unlinkEntry_ne _ _ _ _ heq]
              exact hind i
          · rw [hp1, idleOf_unlinkEntry_oob _ _ _ (Nat.le_of_not_lt hlt)]
            exact hind i
        have hcons2 : ∀ i x, x ∈ idleOf p2 i → ∃ e', entryAt p2 x = some e' ∧ e'.target = i := by
          intro i x hx
          have hne : x ≠ id := by
            intro hxe
            subst hxe
            exact hidleid i hx
          obtain ⟨e', hE, ht⟩ := hcons i x ((hidle2 i x hne).1 hx)
          exact ⟨e', (hentry2 x hne).trans hE, ht⟩
        have IH := ih p2 hsync2 hndr hres2 hind2 hcons2
        have hcongr : ∀ x ∈ rest, expiredB p2 eb x = expiredB p eb x := by
          intro x hx
          have hne : x ≠ id := fun hxe => hhead (hxe ▸ hx)
          unfold expiredB agedOf
          rw [hentry2 x hne]
        have htakec : rest.takeWhile (expiredB p2 eb) = rest.takeWhile (expiredB p eb) :=
          takeWhile_congr _ _ rest hcongr
        have hdropc : rest.dropWhile (expiredB p2 eb) = rest.dropWhile (expiredB p eb) :=
          dropWhile_congr _ _ rest hcongr
        have htakeeq : (id :: rest).takeWhile (expiredB p eb) =
            id :: rest.takeWhile (expiredB p eb) := by
          simp [List.takeWhile_cons, hpred]
        have hdropeq : (id :: rest).dropWhile (expiredB p eb) =
            rest.dropWhile (expiredB p eb) := by
          simp [List.dropWhile_cons, hpred]
        have hcount2 : p2.count = subW p.count := by
          have hc1 : (removeEntry p1 id).count = p.count := by
            show p1.count = p.count
            rw [hp1]
            unfold unlinkEntry
            rw [modifyTarget_count]
          rw [hp2, update_count_count]
          exact congrArg subW hc1
        refine ⟨?_, ?_, ?_, ?_⟩
        · rw [hstep, hdropeq, ← hdropc]
          exact IH.1
        · rw [hstep]
          have hlen : ((id :: rest).takeWhile (expiredB p eb)).length =
              (rest.takeWhile (expiredB p eb)).length + 1 := by
            rw [htakeeq]
            rfl
          have hsub : subWn p.count ((rest.takeWhile (expiredB p eb)).length + 1) =
              subWn (subW p.count) (rest.takeWhile (expiredB p eb)).length :=
            subWn_succ _ _
          rw [hlen, hsub, ← hcount2, ← htakec]
          exact IH.2.1
        · intro x hx
          rw [htakeeq] at hx
          rw [hstep]
          rcases List.mem_cons.1 hx with hxe | hx2
          · subst hxe
            exact ⟨expireIds_entry_none eb rest p2 x hentryid,
              fun i => expireIds_idle_not_mem eb rest p2 i x (hidleid i)⟩
          · rw [← htakec] at hx2
            exact IH.2.2.1 x hx2
        · intro x hx
          rw [hdropeq, ← hdropc] at hx
          have hxrest : x ∈ rest := (List.dropWhile_sublist _).subset hx
          have hne : x ≠ id := fun hxe => hhead (hxe ▸ hxrest)
          rw [hstep]
          obtain ⟨hE, hI⟩ := IH.2.2.2 x hx
          refine ⟨hE.trans (hentry2 x hne), fun i => (hI i).trans (hidle2 i x hne)⟩

theorem expireIds_all_unexpired (eb : Nat) (p : Pool) (l : List Nat)
    (h : ∀ id ∈ l, eb < agedOf p id) : expireIds eb p l = p := by
  cases l with
  | nil => rfl
  | cons id rest =>
    unfold expireIds
    cases he : entryAt p id with
    | none => rfl
    | some e =>
      dsimp only
      rw [if_pos]
      have hh := h id (List.mem_cons_self id rest)
      unfold agedOf at hh
      rw [he] at hh
      exact hh

theorem destroy_expired_noloop (pool : Pool) (now : Nat) (h : pool.loopRegistered = false) :
    destroy_expired pool now = pool := by
  unfold destroy_expired
  rw [if_pos h]

theorem destroy_expired_inert (pool : Pool) (now : Nat) (h : expiryInert pool now) :
    destroy_expired pool now = pool := by
  rcases h with h | h
  · exact destroy_expired_noloop pool now h
  · unfold destroy_expired
    split
    · rfl
    · exact expireIds_all_unexpired _ pool pool.sockets h

theorem cutoff_eq (t now : Nat) (h1 : t ≤ now) (h2 : now < W) :
    (now + (W - t % W)) % W = now - t := by
  have ht : t % W = t := Nat.mod_eq_of_lt (lt_of_le_of_lt h1 h2)
  rw [ht]
  have hW : t ≤ W := le_of_lt (lt_of_le_of_lt h1 h2)
  have hshape : now + (W - t) = (now - t) + W := by omega
  rw [hshape, Nat.add_mod_right]
  exact Nat.mod_eq_of_lt (by omega)

/-- The drain of `destroy_expired` with a registered loop and a sane clock
(`timeout ≤ now < 2 ^ 64`): exactly the maximal expired prefix of the
pool-wide chain is removed — each removed entry leaves both chains and the
entry map, the pool-wide counter drops once per removal, and every newer
entry is untouched. -/
theorem destroy_expired_spec (pool : Pool) (now : Nat)
    (hloop : pool.loopRegistered = true)
    (ht : pool.timeout ≤ now) (hw : now < W)
    (hnd : pool.sockets.Nodup)
    (hres : ∀ id ∈ pool.sockets, (entryAt pool id).isSome)
    (hind : ∀ i, (idleOf pool i).Nodup)
    (hcons : ∀ i id, id ∈ idleOf pool i → ∃ e, entryAt pool id = some e ∧ e.target = i) :
    (destroy_expired pool now).sockets =
      pool.sockets.dropWhile (expiredB pool (now - pool.timeout)) ∧
    (destroy_expired pool now).count =
      subWn pool.count (pool.sockets.takeWhile (expiredB pool (now - pool.timeout))).length ∧
    (∀ id ∈ pool.sockets.takeWhile (expiredB pool (now - pool.timeout)),
      entryAt (destroy_expired pool now) id = none ∧
        ∀ i, id ∉ idleOf (destroy_expired pool now) i) ∧
    (∀ id ∈ pool.sockets.dropWhile (expiredB pool (now - pool.timeout)),
      entryAt (destroy_expired pool now) id = entryAt pool id ∧
        ∀ i, (id ∈ idleOf (destroy_expired pool now) i ↔ id ∈ idleOf pool i)) := by
  have hde : destroy_expired pool now = expireIds (now - pool.timeout) pool pool.sockets := by
    unfold destroy_expired
    rw [if_neg (by rw [hloop]; exact fun hc => Bool.noConfusion hc),
      cutoff_eq pool.timeout now ht hw]
  rw [hde]
  exact expireIds_spec (now - pool.timeout) pool.sockets pool rfl hnd hres hind hcons

theorem update_en_fields (p : Pool) (l : List (Nat × PoolEntry)) (n : Nat) :
    ({ p with entries := l, nextEntryId := n } : Pool).id = p.id ∧
    ({ p with entries := l, nextEntryId := n } : Pool).targets = p.targets ∧
    ({ p with entries := l, nextEntryId := n } : Pool).sockets = p.sockets ∧
    ({ p with entries := l, nextEntryId := n } : Pool).entries = l ∧
    ({ p with entries := l, nextEntryId := n } : Pool).count = p.count ∧
    ({ p with entries := l, nextEntryId := n } : Pool).timeout = p.timeout ∧
    ({ p with entries := l, nextEntryId := n } : Pool).is_global = p.is_global ∧
    ({ p with entries := l, nextEntryId := n } : Pool).loopRegistered = p.loopRegistered ∧
    ({ p with entries := l, nextEntryId := n } : Pool).hasBalancer = p.hasBalancer ∧
    ({ p with entries := l, nextEntryId := n } : Pool).nextEntryId = n := by
  cases p
  exact ⟨rfl, rfl, rfl, rfl, rfl, rfl, rfl, rfl, rfl, rfl⟩

theorem update_sk_fields (p : Pool) (l : List Nat) :
    ({ p with sockets := l } : Pool).id = p.id ∧
    ({ p with sockets := l } : Pool).targets = p.targets ∧
    ({ p with sockets := l } : Pool).sockets = l ∧
    ({ p with sockets := l } : Pool).entries = p.entries ∧
    ({ p with sockets := l } : Pool).count = p.count ∧
    ({ p with sockets := l } : Pool).timeout = p.timeout ∧
    ({ p with sockets := l } : Pool).is_global = p.is_global ∧
    ({ p with sockets := l } : Pool).loopRegistered = p.loopRegistered ∧
    ({ p with sockets := l } : Pool).hasBalancer = p.hasBalancer ∧
    ({ p with sockets := l } : Pool).nextEntryId = p.nextEntryId := by
  cases p
  exact ⟨rfl, rfl, rfl, rfl, rfl, rfl, rfl, rfl, rfl, rfl⟩

theorem update_cnt_fields (p : Pool) (c : Nat) :
    ({ p with count := c } : Pool).loopRegistered = p.loopRegistered ∧
    ({ p with count := c } : Pool).is_global = p.is_global ∧
    ({ p with count := c } : Pool).hasBalancer = p.hasBalancer ∧
    ({ p with count := c } : Pool).nextEntryId = p.nextEntryId := by
  cases p
  exact ⟨rfl, rfl, rfl, rfl⟩

theorem modifyTarget_misc (p : Pool) (i : Nat) (f : Target → Target) :
    (modifyTarget p i f).nextEntryId = p.nextEntryId ∧
    (modifyTarget p i f).timeout = p.timeout ∧
    (modifyTarget p i f).loopRegistered = p.loopRegistered ∧
    (modifyTarget p i f).is_global = p.is_global ∧
    (modifyTarget p i f).hasBalancer = p.hasBalancer ∧
    (modifyTarget p i f).count = p.count ∧
    (modifyTarget p i f).sockets = p.sockets ∧
    (modifyTarget p i f).entries = p.entries := by
  unfold modifyTarget
  cases p.targets.get? i <;> exact ⟨rfl, rfl, rfl, rfl, rfl, rfl, rfl, rfl⟩

theorem entryAt_append_isSome (p : Pool) (pr : Nat × PoolEntry) (id : Nat)
    (h : (entryAt p id).isSome) :
    entryAt ({ p with entries := p.entries ++ [pr] } : Pool) id = entryAt p id := by
  unfold entryAt at *
  cases hf : p.entries.find? (fun q => q.1 == id) with
  | none => rw [hf] at h; cases h
  | some v =>
    show ((p.entries ++ [pr]).find? (fun q => q.1 == id)).map (·.2) = _
    rw [List.find?_append, hf]
    rfl

theorem entryAt_append_fresh (p : Pool) (e : PoolEntry) (id : Nat)
    (h : entryAt p id = none) :
    entryAt ({ p with entries := p.entries ++ [(id, e)] } : Pool) id = some e := by
  unfold entryAt at *
  cases hf : p.entries.find? (fun q => q.1 == id) with
  | some v => rw [hf] at h; cases h
  | none =>
    show ((p.entries ++ [(id, e)]).find? (fun q => q.1 == id)).map (·.2) = _
    rw [List.find?_append, hf]
    simp

theorem entryAt_append_ne (p : Pool) (pr : Nat × PoolEntry) (id : Nat)
    (h : id ≠ pr.1) :
    entryAt ({ p with entries := p.entries ++ [pr] } : Pool) id = entryAt p id := by
  unfold entryAt
  show ((p.entries ++ [pr]).find? (fun q => q.1 == id)).map (·.2) = _
  rw [List.find?_append]
  cases hf : p.entries.find? (fun q => q.1 == id) with
  | some v => rfl
  | none =>
    have hone : [pr].find? (fun q => q.1 == id) = none := by
      simp
      exact fun hc => h hc.symm
    rw [hone]
    rfl

/-- The success path of `h2o_socketpool_return` in terms of the named
intermediate states. -/
theorem return_ok_eq (pool : Pool) (sock : Sock) (now : Nat) (cd : OnCloseData)
    (hcd : sock.closeData = some cd) (hpid : cd.poolId = pool.id) :
    h2o_socketpool_return pool sock now true =
      .ok (returnFin (destroy_expired (returnMid pool sock.fd cd.target now) now) cd.target
            (decRequestCount pool cd.target).nextEntryId)
          (decRequestCount pool cd.target).nextEntryId := by
  unfold h2o_socketpool_return
  rw [hcd]
  dsimp only
  rw [if_neg (not_not_intro hpid), if_neg (fun hc => Bool.noConfusion hc)]
  unfold returnFin returnMid
  rfl

theorem returnMid_fields (pool : Pool) (fdv tgt now : Nat) :
    (returnMid pool fdv tgt now).id = pool.id ∧
    (returnMid pool fdv tgt now).sockets = pool.sockets ∧
    (returnMid pool fdv tgt now).count = pool.count ∧
    (returnMid pool fdv tgt now).timeout = pool.timeout ∧
    (returnMid pool fdv tgt now).loopRegistered = pool.loopRegistered ∧
    (returnMid pool fdv tgt now).is_global = pool.is_global ∧
    (returnMid pool fdv tgt now).nextEntryId = pool.nextEntryId + 1 := by
  unfold returnMid
  dsimp only
  have hu := update_en_fields (decRequestCount pool tgt)
    ((decRequestCount pool tgt).entries ++
      [((decRequestCount pool tgt).nextEntryId, ⟨fdv, tgt, now⟩)])
    ((decRequestCount pool tgt).nextEntryId + 1)
  have hm := modifyTarget_misc pool tgt
    (fun t => { t with request_count := subW t.request_count })
  refine ⟨hu.1.trans (decRequestCount_id pool tgt), ?_, ?_, ?_, ?_, ?_, ?_⟩
  · exact hu.2.2.1.trans hm.2.2.2.2.2.2.1
  · exact hu.2.2.2.2.1.trans hm.2.2.2.2.2.1
  · exact hu.2.2.2.2.2.1.trans hm.2.1
  · exact hu.2.2.2.2.2.2.2.1.trans hm.2.2.1
  · exact hu.2.2.2.2.2.2.1.trans hm.2.2.2.1
  · exact hu.2.2.2.2.2.2.2.2.2.trans (congrArg (· + 1) hm.1)

theorem returnMid_rcOf_self (pool : Pool) (fdv tgt now : Nat) (h : tgt < pool.targets.length) :
    rcOf (returnMid pool fdv tgt now) tgt = subW (rcOf pool tgt) := by
  unfold returnMid
  dsimp only
  have : rcOf ({ decRequestCount pool tgt with
      entries := (decRequestCount pool tgt).entries ++
        [((decRequestCount pool tgt).nextEntryId, ⟨fdv, tgt, now⟩)],
      nextEntryId := (decRequestCount pool tgt).nextEntryId + 1 } : Pool) tgt =
      rcOf (decRequestCount pool tgt) tgt := by
    unfold rcOf getTargetD
    rw [(update_en_fields _ _ _).2.1]
  rw [this]
  exact rcOf_decRequestCount_self pool tgt h

theorem returnMid_rcOf_ne (pool : Pool) (fdv tgt now : Nat) (i : Nat) (h : tgt ≠ i) :
    rcOf (returnMid pool fdv tgt now) i = rcOf pool i := by
  unfold returnMid
  dsimp only
  have h1 : rcOf ({ decRequestCount pool tgt with
      entries := (decRequestCount pool tgt).entries ++
        [((decRequestCount pool tgt).nextEntryId, ⟨fdv, tgt, now⟩)],
      nextEntryId := (decRequestCount pool tgt).nextEntryId + 1 } : Pool) i =
      rcOf (decRequestCount pool tgt) i := by
    unfold rcOf getTargetD
    rw [(update_en_fields _ _ _).2.1]
  rw [h1]
  unfold rcOf decRequestCount
  rw [getTargetD_modifyTarget_ne _ _ _ _ h]

theorem returnMid_idleOf (pool : Pool) (fdv tgt now : Nat) (i : Nat) :
    idleOf (returnMid pool fdv tgt now) i = idleOf pool i := by
  unfold returnMid
  dsimp only
  have h1 : idleOf ({ decRequestCount pool tgt with
      entries := (decRequestCount pool tgt).entries ++
        [((decRequestCount pool tgt).nextEntryId, ⟨fdv, tgt, now⟩)],
      nextEntryId := (decRequestCount pool tgt).nextEntryId + 1 } : Pool) i =
      idleOf (decRequestCount pool tgt) i := by
    unfold idleOf getTargetD
    rw [(update_en_fields _ _ _).2.1]
  rw [h1]
  unfold decRequestCount
  exact idleOf_modifyTarget_rc pool tgt i _

theorem returnMid_entryAt_old (pool : Pool) (fdv tgt now id : Nat)
    (h : id ≠ pool.nextEntryId) :
    entryAt (returnMid pool fdv tgt now) id = entryAt pool id := by
  unfold returnMid
  dsimp only
  have hn : (decRequestCount pool tgt).nextEntryId = pool.nextEntryId :=
    (modifyTarget_misc pool tgt _).1
  have h2 : entryAt (decRequestCount pool tgt) id = entryAt pool id := by
    unfold entryAt
    rw [decRequestCount_entries]
  calc entryAt _ id
      = entryAt (decRequestCount pool tgt) id := by
        refine entryAt_append_ne _ _ _ ?_
        rw [hn]
        exact h
    _ = entryAt pool id := h2

theorem returnMid_entryAt_new (pool : Pool) (fdv tgt now : Nat)
    (hfresh : entryAt pool pool.nextEntryId = none) :
    entryAt (returnMid pool fdv tgt now) pool.nextEntryId =
      some ⟨fdv, tgt, now⟩ := by
  unfold returnMid
  dsimp only
  have hn : (decRequestCount pool tgt).nextEntryId = pool.nextEntryId :=
    (modifyTarget_misc pool tgt _).1
  have h2 : entryAt (decRequestCount pool tgt) pool.nextEntryId = none := by
    unfold entryAt
    rw [decRequestCount_entries]
    exact hfresh
  rw [hn]
  exact entryAt_append_fresh _ _ _ h2

theorem returnFin_fields (q : Pool) (tgt newId : Nat) :
    (returnFin q tgt newId).id = q.id ∧
    (returnFin q tgt newId).sockets = q.sockets ++ [newId] ∧
    (returnFin q tgt newId).count = q.count ∧
    (returnFin q tgt newId).entries = q.entries ∧
    (returnFin q tgt newId).timeout = q.timeout ∧
    (returnFin q tgt newId).loopRegistered = q.loopRegistered ∧
    (returnFin q tgt newId).is_global = q.is_global ∧
    (returnFin q tgt newId).nextEntryId = q.nextEntryId := by
  unfold returnFin
  have hm := modifyTarget_misc ({ q with sockets := q.sockets ++ [newId] } : Pool) tgt
    (fun t => { t with idle := t.idle ++ [newId] })
  have hu := update_sk_fields q (q.sockets ++ [newId])
  exact ⟨(modifyTarget_id _ _ _).trans hu.1,
    hm.2.2.2.2.2.2.1.trans hu.2.2.1,
    hm.2.2.2.2.2.1.trans hu.2.2.2.2.1,
    hm.2.2.2.2.2.2.2.trans hu.2.2.2.1,
    hm.2.1.trans hu.2.2.2.2.2.1,
    hm.2.2.1.trans hu.2.2.2.2.2.2.2.1,
    hm.2.2.2.1.trans hu.2.2.2.2.2.2.1,
    hm.1.trans hu.2.2.2.2.2.2.2.2.2⟩

theorem returnFin_idleOf_self (q : Pool) (tgt newId : Nat) (h : tgt < q.targets.length) :
    idleOf (returnFin q tgt newId) tgt = idleOf q tgt ++ [newId] := by
  unfold returnFin
  have h' : tgt < ({ q with sockets := q.sockets ++ [newId] } : Pool).targets.length := by
    rw [(update_sk_fields q _).2.1]
    exact h
  unfold idleOf
  rw [getTargetD_modifyTarget_self _ _ _ h', targetUpdate_idle_idle]
  show (getTargetD ({ q with sockets := q.sockets ++ [newId] } : Pool) tgt).idle ++ [newId] = _
  unfold getTargetD
  rw [(update_sk_fields q _).2.1]

theorem returnFin_idleOf_ne (q : Pool) (tgt newId i : Nat) (h : tgt ≠ i) :
    idleOf (returnFin q tgt newId) i = idleOf q i := by
  unfold returnFin idleOf
  rw [getTargetD_modifyTarget_ne _ _ _ _ h]
  unfold getTargetD
  rw [(update_sk_fields q _).2.1]

theorem returnFin_rcOf (q : Pool) (tgt newId i : Nat) :
    rcOf (returnFin q tgt newId) i = rcOf q i := by
  unfold returnFin
  have h := rcOf_modifyTarget_idle ({ q with sockets := q.sockets ++ [newId] } : Pool) tgt i
    (fun l => l ++ [newId])
  refine h.trans ?_
  unfold rcOf getTargetD
  rw [(update_sk_fields q _).2.1]

theorem returnFin_entryAt (q : Pool) (tgt newId id : Nat) :
    entryAt (returnFin q tgt newId) id = entryAt q id := by
  unfold returnFin entryAt
  rw [modifyTarget_entries, (update_sk_fields q _).2.2.2.1]

theorem noCF_append {t1 t2 : List Ev} (h1 : noCF t1 = true) (h2 : noCF t2 = true) :
    noCF (t1 ++ t2) = true := by
  unfold noCF at *
  rw [List.all_append, h1, h2]; rfl

theorem countCb_of_noCF {tr : List Ev} (h : noCF tr = true) : countCb tr = 0 := by
  unfold countCb
  rw [List.countP_eq_zero]
  intro e he
  have he' := List.all_eq_true.1 h e he
  simp only [Bool.and_eq_true, Bool.not_eq_true'] at he'
  simp [he'.1]

theorem countFree_of_noCF {tr : List Ev} (h : noCF tr = true) : countFree tr = 0 := by
  unfold countFree
  rw [List.countP_eq_zero]
  intro e he
  have he' := List.all_eq_true.1 h e he
  simp only [Bool.and_eq_true, Bool.not_eq_true'] at he'
  simp [he'.2]

theorem TermTrace_cons {rid pid : Nat} {o : Oracle} {ev : Ev} {tr : List Ev}
    (h1 : isCbEv ev = false) (h2 : isFreeEv ev = false) (h : TermTrace rid pid o tr) :
    TermTrace rid pid o (ev :: tr) := by
  obtain ⟨pre, s, err, hpre, herr, hsock, hshape⟩ := h
  refine ⟨ev :: pre, s, err, ?_, herr, hsock, ?_⟩
  · unfold noCF at hpre ⊢
    rw [List.all_cons, hpre, h1, h2]; rfl
  · rcases hshape with hs | hs
    · exact Or.inl (by rw [hs]; rfl)
    · exact Or.inr (by rw [hs]; rfl)

theorem TermTrace_prepend {rid pid : Nat} {o : Oracle} {pre0 tr : List Ev}
    (hpre : noCF pre0 = true) (h : TermTrace rid pid o tr) :
    TermTrace rid pid o (pre0 ++ tr) := by
  obtain ⟨pre, s, err, hp, herr, hsock, hshape⟩ := h
  refine ⟨pre0 ++ pre, s, err, noCF_append hpre hp, herr, hsock, ?_⟩
  rcases hshape with hs | hs
  · exact Or.inl (by rw [hs, List.append_assoc])
  · exact Or.inr (by rw [hs, List.append_assoc])

theorem TermTrace_of_pair_cb_free {rid pid : Nat} {o : Oracle} {s : Option Sock}
    {err : Option String} (hs : sockFromPool pid s) (he : allowedErr o err) :
    TermTrace rid pid o [Ev.cb s err, Ev.freeReq rid] :=
  ⟨[], s, err, rfl, he, hs, Or.inl rfl⟩

theorem TermTrace_of_pair_free_cb {rid pid : Nat} {o : Oracle} {s : Option Sock}
    {err : Option String} (hs : sockFromPool pid s) (he : allowedErr o err) :
    TermTrace rid pid o [Ev.freeReq rid, Ev.cb s err] :=
  ⟨[], s, err, rfl, he, hs, Or.inr rfl⟩

/-! #### Characterization of the connect state machine -/

theorem lb_phase_spec (pool : Pool) (req : ConnReq) (sel : Nat) :
    lb_phase pool req sel = none ∨
      ∃ p r, lb_phase pool req sel = some (p, r) ∧ sameShape p pool ∧ r.id = req.id ∧
        r.remaining = req.remaining ∧ r.sock = req.sock := by
  unfold lb_phase
  cases htr : req.tried with
  | none => exact Or.inr ⟨pool, req, rfl, sameShape_refl pool, rfl, rfl, rfl⟩
  | some tried =>
    cases hb : pool.hasBalancer with
    | false =>
      exact Or.inr ⟨pool, { req with selected_target := 0, tried := some tried }, rfl,
        sameShape_refl pool, rfl, rfl, rfl⟩
    | true =>
      by_cases hc : sel < pool.targets.length ∧ tried.get? sel = some false
      · obtain ⟨hc1, hc2⟩ := hc
        rw [List.get?_eq_getElem?] at hc2
        refine Or.inr ⟨incRequestCount pool sel,
          { req with selected_target := sel, tried := some (tried.set sel true) }, ?_,
          incRequestCount_sameShape pool sel, rfl, rfl, rfl⟩
        simp [hc1, hc2]
      · refine Or.inl ?_
        have hx : ¬(sel < pool.targets.length ∧ tried[sel]? = some false) :=
          fun hcc => hc ⟨hcc.1, by rw [List.get?_eq_getElem?]; exact hcc.2⟩
        simp [hx]

theorem try_fetch_spec (req : ConnReq) (o : Oracle) :
    ∀ (l : List Nat) (pool : Pool),
      (∃ p, try_fetch_go req o pool l = .emptied p ∧ sameShape p pool) ∨
      (∃ p, try_fetch_go req o pool l = .stuck p ∧ sameShape p pool) ∨
      (∃ p fd t, try_fetch_go req o pool l =
          .reused p [Ev.cb (some ⟨fd, some ⟨p.id, t⟩⟩) none, Ev.freeReq req.id] ∧
        sameShape p pool) := by
  intro l
  induction l with
  | nil => intro pool; exact Or.inl ⟨pool, rfl, sameShape_refl pool⟩
  | cons id rest ih =>
    intro pool
    unfold try_fetch_go
    cases he : entryAt pool id with
    | none => exact Or.inr (Or.inl ⟨pool, rfl, sameShape_refl pool⟩)
    | some e =>
      simp only
      cases hp : o.probe e.fd with
      | wouldblock =>
        refine Or.inr (Or.inr ⟨_, e.fd, e.target, rfl, ?_⟩)
        exact sameShape_trans (removeEntry_sameShape _ _) (unlinkEntry_sameShape _ _ _)
      | eof =>
        rcases ih (removeEntry (unlinkEntry pool id e.target) id) with
          ⟨p, hr, hs⟩ | ⟨p, hr, hs⟩ | ⟨p, fd, t, hr, hs⟩
        · exact Or.inl ⟨p, hr, sameShape_trans hs (sameShape_trans
            (removeEntry_sameShape _ _) (unlinkEntry_sameShape _ _ _))⟩
        · exact Or.inr (Or.inl ⟨p, hr, sameShape_trans hs (sameShape_trans
            (removeEntry_sameShape _ _) (unlinkEntry_sameShape _ _ _))⟩)
        · exact Or.inr (Or.inr ⟨p, fd, t, hr, sameShape_trans hs (sameShape_trans
            (removeEntry_sameShape _ _) (unlinkEntry_sameShape _ _ _))⟩)
      | extra =>
        rcases ih (removeEntry (unlinkEntry pool id e.target) id) with
          ⟨p, hr, hs⟩ | ⟨p, hr, hs⟩ | ⟨p, fd, t, hr, hs⟩
        · exact Or.inl ⟨p, hr, sameShape_trans hs (sameShape_trans
            (removeEntry_sameShape _ _) (unlinkEntry_sameShape _ _ _))⟩
        · exact Or.inr (Or.inl ⟨p, hr, sameShape_trans hs (sameShape_trans
            (removeEntry_sameShape _ _) (unlinkEntry_sameShape _ _ _))⟩)
        · exact Or.inr (Or.inr ⟨p, fd, t, hr, sameShape_trans hs (sameShape_trans
            (removeEntry_sameShape _ _) (unlinkEntry_sameShape _ _ _))⟩)

theorem socket_close_spec (pool : Pool) (s : Option Sock) :
    sameShape (socket_close pool s).1 pool ∧ noCF (socket_close pool s).2 = true := by
  unfold socket_close
  rcases s with _ | ⟨fd, _ | cd⟩
  · exact ⟨sameShape_refl pool, rfl⟩
  · exact ⟨sameShape_refl pool, rfl⟩
  · exact ⟨on_close_sameShape pool cd, rfl⟩

theorem on_connect_spec (o : Oracle) (pool : Pool) (req : ConnReq) (failed : Bool)
    (hs : sockFromPool pool.id req.sock) :
    (∃ p tr, on_connect_model pool req failed = .done p tr false ∧ sameShape p pool ∧
      TermTrace req.id pool.id o tr) ∨
    (∃ p tr, on_connect_model pool req failed = .retry p req tr ∧ sameShape p pool ∧
      noCF tr = true ∧ req.remaining ≠ 0) := by
  cases failed with
  | false =>
    exact Or.inl ⟨pool, _, rfl, sameShape_refl pool,
      TermTrace_of_pair_free_cb hs (Or.inl rfl)⟩
  | true =>
    have hsc := socket_close_spec (decRequestCount pool req.selected_target) req.sock
    by_cases hr : req.remaining = 0
    · refine Or.inl ⟨(socket_close (decRequestCount pool req.selected_target) req.sock).1,
        (socket_close (decRequestCount pool req.selected_target) req.sock).2 ++
          call_connect_cb { req with sock := none } (some "connection failed"), ?_, ?_, ?_⟩
      · show on_connect_model pool req true = _
        unfold on_connect_model
        rw [if_pos hr]
        exact if_pos rfl
      · exact sameShape_trans hsc.1 (decRequestCount_sameShape pool req.selected_target)
      · exact TermTrace_prepend hsc.2
          (TermTrace_of_pair_free_cb True.intro (Or.inr (Or.inr (Or.inl rfl))))
    · refine Or.inr ⟨(socket_close (decRequestCount pool req.selected_target) req.sock).1,
        (socket_close (decRequestCount pool req.selected_target) req.sock).2, ?_, ?_, hsc.2, hr⟩
      · show on_connect_model pool req true = _
        unfold on_connect_model
        rw [if_neg hr]
        exact if_pos rfl
      · exact sameShape_trans hsc.1 (decRequestCount_sameShape pool req.selected_target)

theorem start_connect_spec (o : Oracle) (pool : Pool) (req : ConnReq) (a : Nat) :
    (∃ p tr, start_connect_model pool req o a = .done p tr false ∧ sameShape p pool ∧
      TermTrace req.id pool.id o tr) ∨
    (∃ p r1 tr, start_connect_model pool req o a = .retry p r1 tr ∧ sameShape p pool ∧
      noCF tr = true ∧ r1.id = req.id ∧ r1.remaining = req.remaining ∧
      sockFromPool pool.id r1.sock) := by
  unfold start_connect_model
  cases hc : o.conn a with
  | syncFail =>
    refine Or.inl ⟨{ pool with count := subW pool.count },
      Ev.subCount :: call_connect_cb { req with sock := none }
        (some "failed to connect to host"), rfl, ⟨rfl, rfl⟩, ?_⟩
    exact TermTrace_cons rfl rfl
      (TermTrace_of_pair_free_cb True.intro (Or.inr (Or.inl rfl)))
  | asyncOk =>
    dsimp only
    have heq : (ConnOutcome.asyncOk == ConnOutcome.asyncFail) = false := rfl
    rw [heq]
    have := on_connect_spec o pool
      { req with sock := some ⟨o.freshFd a, some ⟨pool.id, req.selected_target⟩⟩ }
      false ⟨⟨pool.id, req.selected_target⟩, rfl, rfl⟩
    rcases this with ⟨p, tr, hr, hsh, htt⟩ | ⟨p, tr, hr, hsh, hn, hrem⟩
    · exact Or.inl ⟨p, tr, hr, hsh, htt⟩
    · exact Or.inr ⟨p,
        { req with sock := some ⟨o.freshFd a, some ⟨pool.id, req.selected_target⟩⟩ }, tr,
        hr, hsh, hn, rfl, rfl,
        ⟨⟨pool.id, req.selected_target⟩, rfl, rfl⟩⟩
  | asyncFail =>
    dsimp only
    have heq : (ConnOutcome.asyncFail == ConnOutcome.asyncFail) = true := rfl
    rw [heq]
    have := on_connect_spec o pool
      { req with sock := some ⟨o.freshFd a, some ⟨pool.id, req.selected_target⟩⟩ }
      true ⟨⟨pool.id, req.selected_target⟩, rfl, rfl⟩
    rcases this with ⟨p, tr, hr, hsh, htt⟩ | ⟨p, tr, hr, hsh, hn, hrem⟩
    · exact Or.inl ⟨p, tr, hr, hsh, htt⟩
    · exact Or.inr ⟨p,
        { req with sock := some ⟨o.freshFd a, some ⟨pool.id, req.selected_target⟩⟩ }, tr,
        hr, hsh, hn, rfl, rfl,
        ⟨⟨pool.id, req.selected_target⟩, rfl, rfl⟩⟩

theorem on_getaddr_spec (o : Oracle) (pool : Pool) (req : ConnReq) (a : Nat)
    (hs : sockFromPool pool.id req.sock) :
    (∃ p tr, on_getaddr_model pool req o a = .done p tr false ∧ sameShape p pool ∧
      TermTrace req.id pool.id o tr) ∨
    (∃ p r1 tr, on_getaddr_model pool req o a = .retry p r1 tr ∧ sameShape p pool ∧
      noCF tr = true ∧ r1.id = req.id ∧ r1.remaining = req.remaining ∧
      sockFromPool pool.id r1.sock) := by
  unfold on_getaddr_model
  cases hr : o.resolve a with
  | some e =>
    refine Or.inl ⟨{ pool with count := subW pool.count },
      Ev.subCount :: call_connect_cb req (some e), rfl, ⟨rfl, rfl⟩, ?_⟩
    exact TermTrace_cons rfl rfl
      (TermTrace_of_pair_free_cb hs (Or.inr (Or.inr (Or.inr ⟨a, e, hr, rfl⟩))))
  | none => exact start_connect_spec o pool req a

theorem attempt_once_spec (pool : Pool) (req : ConnReq) (o : Oracle) (a : Nat)
    (hs : sockFromPool pool.id req.sock) :
    (∃ p tr, attempt_once pool req o a = .done p tr true ∧ sameShape p pool ∧
      noCF tr = true) ∨
    (∃ p tr, attempt_once pool req o a = .done p tr false ∧ sameShape p pool ∧
      TermTrace req.id pool.id o tr) ∨
    (∃ p r1 tr, attempt_once pool req o a = .retry p r1 tr ∧ sameShape p pool ∧
      noCF tr = true ∧ r1.id = req.id ∧ r1.remaining = req.remaining - 1 ∧
      req.remaining ≠ 0 ∧ sockFromPool p.id r1.sock) := by
  unfold attempt_once
  by_cases h0 : req.remaining = 0
  · exact Or.inl ⟨pool, [], by simp [h0], sameShape_refl pool, rfl⟩
  rcases lb_phase_spec pool { req with remaining := req.remaining - 1 } (o.select a) with
    hlb | ⟨p1, r2, hlb, hsh1, hid1, hrem1, hsock1⟩
  · exact Or.inl ⟨pool, [], by simp [h0, hlb], sameShape_refl pool, rfl⟩
  rcases try_fetch_spec r2 o (idleOf p1 r2.selected_target) p1 with
    ⟨p2, hf, hsh2⟩ | ⟨p2, hf, hsh2⟩ | ⟨p2, fd, t, hf, hsh2⟩
  all_goals simp only [h0, if_neg h0, hlb, hf]
  · -- chain exhausted: fresh connect via resolver or direct connect
    have hsock2 : sockFromPool ({ p2 with count := addW p2.count } : Pool).id r2.sock := by
      have : ({ p2 with count := addW p2.count } : Pool).id = pool.id := by
        show p2.id = pool.id
        exact hsh2.1.trans hsh1.1
      rw [this, hsock1]
      exact hs
    have hshp3 : sameShape ({ p2 with count := addW p2.count } : Pool) pool :=
      sameShape_trans ⟨rfl, rfl⟩ (sameShape_trans hsh2 hsh1)
    cases ht : (getTargetD { p2 with count := addW p2.count } r2.selected_target).typ with
    | NAMED =>
      rcases on_getaddr_spec o { p2 with count := addW p2.count } r2 a hsock2 with
        ⟨p, tr, hr, hsh, htt⟩ | ⟨p, r1, tr, hr, hsh, hn, hid, hrem, hsf⟩
      · refine Or.inr (Or.inl ⟨p, _, by rw [hr]; rfl, sameShape_trans hsh hshp3, ?_⟩)
        have : req.id = r2.id := hid1.symm
        rw [this]
        have hpid : pool.id = ({ p2 with count := addW p2.count } : Pool).id := hshp3.1.symm
        rw [hpid]
        exact TermTrace_cons rfl rfl htt
      · refine Or.inr (Or.inr ⟨p, r1, _, by rw [hr]; rfl, sameShape_trans hsh hshp3, ?_,
          hid.trans hid1, by rw [hrem, hrem1], h0, ?_⟩)
        · unfold noCF at hn ⊢
          rw [List.all_cons, hn]; rfl
        · have : p.id = ({ p2 with count := addW p2.count } : Pool).id := hsh.1
          rw [this]
          exact hsf
    | SOCKADDR =>
      rcases start_connect_spec o { p2 with count := addW p2.count } r2 a with
        ⟨p, tr, hr, hsh, htt⟩ | ⟨p, r1, tr, hr, hsh, hn, hid, hrem, hsf⟩
      · refine Or.inr (Or.inl ⟨p, _, by rw [hr]; rfl, sameShape_trans hsh hshp3, ?_⟩)
        have : req.id = r2.id := hid1.symm
        rw [this]
        have hpid : pool.id = ({ p2 with count := addW p2.count } : Pool).id := hshp3.1.symm
        rw [hpid]
        exact TermTrace_cons rfl rfl htt
      · refine Or.inr (Or.inr ⟨p, r1, _, by rw [hr]; rfl, sameShape_trans hsh hshp3, ?_,
          hid.trans hid1, by rw [hrem, hrem1], h0, ?_⟩)
        · unfold noCF at hn ⊢
          rw [List.all_cons, hn]; rfl
        · have : p.id = ({ p2 with count := addW p2.count } : Pool).id := hsh.1
          rw [this]
          exact hsf
  · -- dangling id: abort
    exact Or.inl ⟨p2, [], rfl, sameShape_trans hsh2 hsh1, rfl⟩
  · -- idle entry reused
    refine Or.inr (Or.inl ⟨p2, _, rfl, sameShape_trans hsh2 hsh1, ?_⟩)
    have hid2 : req.id = r2.id := hid1.symm
    rw [hid2]
    refine TermTrace_of_pair_cb_free ?_ (Or.inl rfl)
    exact ⟨⟨p2.id, t⟩, rfl, (sameShape_trans hsh2 hsh1).1⟩

theorem try_connect_go_spec (o : Oracle) :
    ∀ (fuel : Nat) (pool : Pool) (req : ConnReq) (a : Nat), req.remaining = fuel →
      sockFromPool pool.id req.sock →
      ((try_connect_go o fuel pool req a).ab = true ∧
        noCF (try_connect_go o fuel pool req a).trace = true ∧
        sameShape (try_connect_go o fuel pool req a).pool pool) ∨
      ((try_connect_go o fuel pool req a).ab = false ∧
        TermTrace req.id pool.id o (try_connect_go o fuel pool req a).trace ∧
        sameShape (try_connect_go o fuel pool req a).pool pool) := by
  intro fuel
  induction fuel with
  | zero =>
    intro pool req a hf hs
    exact Or.inl ⟨rfl, rfl, sameShape_refl pool⟩
  | succ n ih =>
    intro pool req a hf hs
    rcases attempt_once_spec pool req o a hs with
      ⟨p, tr, hr, hsh, hn⟩ | ⟨p, tr, hr, hsh, htt⟩ |
      ⟨p, r1, tr, hr, hsh, hn, hid, hrem, h0, hsf⟩
    · have heq : try_connect_go o (n + 1) pool req a = ⟨p, tr, true⟩ := by
        simp only [try_connect_go, hr]
      rw [heq]
      exact Or.inl ⟨rfl, hn, hsh⟩
    · have heq : try_connect_go o (n + 1) pool req a = ⟨p, tr, false⟩ := by
        simp only [try_connect_go, hr]
      rw [heq]
      exact Or.inr ⟨rfl, htt, hsh⟩
    · have hrem' : r1.remaining = n := by omega
      have heq : try_connect_go o (n + 1) pool req a =
          ⟨(try_connect_go o n p r1 (a + 1)).pool,
            tr ++ (try_connect_go o n p r1 (a + 1)).trace,
            (try_connect_go o n p r1 (a + 1)).ab⟩ := by
        simp only [try_connect_go, hr]
      rw [heq]
      rcases ih p r1 (a + 1) hrem' hsf with ⟨hab, hn2, hsh2⟩ | ⟨hab, htt2, hsh2⟩
      · exact Or.inl ⟨hab, noCF_append hn hn2, sameShape_trans hsh2 hsh⟩
      · refine Or.inr ⟨hab, ?_, sameShape_trans hsh2 hsh⟩
        have htt3 := TermTrace_prepend hn htt2
        rw [hid, hsh.1] at htt3
        exact htt3

theorem add_target_pool_id (p : Pool) (u : URL) : (add_target p u).1.id = p.id := rfl

theorem connect_select_target_pool_id (pool : Pool) (url : URL) (now : Nat) :
    (selPool (connect_select_target pool url now)).id = pool.id := by
  unfold connect_select_target
  dsimp only
  cases hg : (destroy_expired pool now).is_global with
  | false =>
    rw [if_neg Bool.false_ne_true]
    split <;> simp [selPool, destroy_expired_id pool now]
  | true =>
    rw [if_pos rfl]
    cases hl : lookup_target (destroy_expired pool now) url with
    | some i =>
      dsimp only
      split <;> simp [selPool, destroy_expired_id pool now]
    | none =>
      dsimp only
      split <;> simp [selPool, add_target_pool_id, destroy_expired_id pool now]

theorem connect_machine_spec (pool : Pool) (url : URL) (now : Nat) (rid : Nat) (o : Oracle) :
    ((h2o_socketpool_connect pool url now rid o).ab = true ∧
      noCF (h2o_socketpool_connect pool url now rid o).trace = true) ∨
    ((h2o_socketpool_connect pool url now rid o).ab = false ∧
      TermTrace rid pool.id o (h2o_socketpool_connect pool url now rid o).trace) := by
  unfold h2o_socketpool_connect
  cases hsel : connect_select_target pool url now with
  | ab p => exact Or.inl ⟨rfl, rfl⟩
  | ok p tgt =>
    have hpid : p.id = pool.id := by
      have hh := connect_select_target_pool_id pool url now
      rw [hsel] at hh
      exact hh
    cases tgt with
    | some i =>
      rcases try_connect_go_spec o 1 p ⟨rid, none, i, 1, none⟩ 0 rfl True.intro with
        ⟨hab, hn, hsh⟩ | ⟨hab, htt, hsh⟩
      · exact Or.inl ⟨hab, hn⟩
      · refine Or.inr ⟨hab, ?_⟩
        rw [hpid] at htt
        exact htt
    | none =>
      rcases try_connect_go_spec o p.targets.length p
          ⟨rid, none, W - 1, p.targets.length, some (List.replicate p.targets.length false)⟩ 0
          rfl True.intro with
        ⟨hab, hn, hsh⟩ | ⟨hab, htt, hsh⟩
      · exact Or.inl ⟨hab, hn⟩
      · refine Or.inr ⟨hab, ?_⟩
        rw [hpid] at htt
        exact htt

/-! #### Lookup, target-matching and URL helpers -/

theorem lowByte_idem (b : Nat) : lowByte (lowByte b) = lowByte b := by
  unfold lowByte
  by_cases h : 65 ≤ b ∧ b ≤ 90
  · rw [if_pos h, if_neg (by omega)]
  · rw [if_neg h, if_neg h]

theorem lowBytes_idem (s : List Nat) : lowBytes (lowBytes s) = lowBytes s := by
  unfold lowBytes
  rw [List.map_map]
  exact List.map_congr_left (fun a _ => lowByte_idem a)

theorem targetMatch_init (origin : URL) : targetMatch (init_target origin) origin = true := by
  unfold init_target targetMatch
  dsimp only
  by_cases hc : detect_target_type origin = TargetType.SOCKADDR ∧ isUnixHost origin.host
  · rw [if_pos hc]
    simp [h2o_url_get_port, h2o_url_hosts_are_equal]
  · rw [if_neg hc]
    simp [h2o_url_get_port, h2o_url_hosts_are_equal, lowBytes_idem]

theorem lookup_go_congr (url : URL) :
    ∀ (l1 l2 : List Target),
      l1.map (fun t => t.url) = l2.map (fun t => t.url) →
      ∀ i, lookup_go url l1 i = lookup_go url l2 i := by
  intro l1
  induction l1 with
  | nil =>
    intro l2 h i
    cases l2 with
    | nil => rfl
    | cons b l2' => cases h
  | cons a l ih =>
    intro l2 h i
    cases l2 with
    | nil => cases h
    | cons b l2' =>
      simp only [List.map_cons, List.cons.injEq] at h
      unfold lookup_go
      have hmatch : targetMatch a url = targetMatch b url := by
        unfold targetMatch h2o_url_get_port h2o_url_hosts_are_equal
        rw [h.1]
      rw [hmatch]
      split
      · rfl
      · exact ih l2' h.2 (i + 1)

theorem lookup_congr (p q : Pool) (url : URL)
    (h : p.targets.map (fun t => t.url) = q.targets.map (fun t => t.url)) :
    lookup_target p url = lookup_target q url :=
  lookup_go_congr url p.targets q.targets h 0

theorem bool_not_true {b : Bool} (h : ¬(b = true)) : b = false := by
  cases b
  · rfl
  · exact absurd rfl h

theorem lookup_go_none (url : URL) :
    ∀ (l : List Target) (base : Nat), lookup_go url l base = none →
      ∀ k, k < l.length → targetMatch ((l.get? k).getD dummyTarget) url = false := by
  intro l
  induction l with
  | nil =>
    intro base _ k hk
    cases hk
  | cons a rest ih =>
    intro base h k hk
    unfold lookup_go at h
    by_cases hm : targetMatch a url = true
    · rw [if_pos hm] at h
      cases h
    · rw [if_neg hm] at h
      cases k with
      | zero => exact bool_not_true hm
      | succ k' => exact ih (base + 1) h k' (Nat.lt_of_succ_lt_succ hk)

theorem lookup_go_some (url : URL) :
    ∀ (l : List Target) (base r : Nat), lookup_go url l base = some r →
      ∃ k, k < l.length ∧ r = base + k ∧
        targetMatch ((l.get? k).getD dummyTarget) url = true ∧
        ∀ j, j < k → targetMatch ((l.get? j).getD dummyTarget) url = false := by
  intro l
  induction l with
  | nil =>
    intro base r h
    cases h
  | cons a rest ih =>
    intro base r h
    unfold lookup_go at h
    by_cases hm : targetMatch a url = true
    · rw [if_pos hm] at h
      refine ⟨0, Nat.succ_pos _, ?_, hm, fun j hj => absurd hj (Nat.not_lt_zero j)⟩
      cases h
      omega
    · rw [if_neg hm] at h
      obtain ⟨k, hk, hr, hmk, hprev⟩ := ih (base + 1) r h
      refine ⟨k + 1, Nat.succ_lt_succ hk, by omega, hmk, ?_⟩
      intro j hj
      cases j with
      | zero => exact bool_not_true hm
      | succ j' => exact hprev j' (Nat.lt_of_succ_lt_succ hj)

theorem lookup_go_append (url : URL) (t : Target) :
    ∀ (l : List Target) (base : Nat), lookup_go url l base = none →
      lookup_go url (l ++ [t]) base =
        if targetMatch t url then some (base + l.length) else none := by
  intro l
  induction l with
  | nil =>
    intro base _
    show lookup_go url [t] base = _
    unfold lookup_go
    by_cases hm : targetMatch t url = true
    · rw [if_pos hm, if_pos hm]
      rfl
    · rw [if_neg hm, if_neg hm]
      rfl
  | cons a rest ih =>
    intro base h
    unfold lookup_go at h
    rw [List.cons_append]
    show (if targetMatch a url then some base else lookup_go url (rest ++ [t]) (base + 1)) = _
    by_cases hm : targetMatch a url = true
    · rw [if_pos hm] at h
      cases h
    · rw [if_neg hm] at h ⊢
      rw [ih (base + 1) h]
      have harith : base + 1 + rest.length = base + (a :: rest).length := by
        simp only [List.length_cons]
        omega
      rw [harith]

theorem expireIds_map_url (eb : Nat) :
    ∀ (l : List Nat) (p : Pool),
      (expireIds eb p l).targets.map (fun t => t.url) = p.targets.map (fun t => t.url) := by
  intro l
  induction l with
  | nil => intro p; rfl
  | cons id rest ih =>
    intro p
    unfold expireIds
    cases entryAt p id with
    | none => rfl
    | some e =>
      simp only
      split
      · rfl
      · rw [ih]
        show (removeEntry (unlinkEntry p id e.target) id).targets.map (fun t => t.url) = _
        have h1 : (removeEntry (unlinkEntry p id e.target) id).targets =
            (unlinkEntry p id e.target).targets := rfl
        rw [h1]
        exact (unlinkEntry_sameShape p id e.target).2

theorem destroy_expired_map_url (p : Pool) (now : Nat) :
    (destroy_expired p now).targets.map (fun t => t.url) = p.targets.map (fun t => t.url) := by
  unfold destroy_expired
  split
  · rfl
  · exact expireIds_map_url _ _ _

theorem destroy_expired_sameShape (p : Pool) (now : Nat) :
    sameShape (destroy_expired p now) p :=
  ⟨destroy_expired_id p now, destroy_expired_map_url p now⟩

/-! #### Observational characterization of the return success path -/

theorem returnMid_targets (pool : Pool) (fdv tgt now : Nat) :
    (returnMid pool fdv tgt now).targets = (decRequestCount pool tgt).targets := by
  unfold returnMid
  dsimp only

theorem returnMid_length (pool : Pool) (fdv tgt now : Nat) :
    (returnMid pool fdv tgt now).targets.length = pool.targets.length := by
  rw [returnMid_targets]
  exact decRequestCount_length pool tgt

theorem returnMid_map_url (pool : Pool) (fdv tgt now : Nat) :
    (returnMid pool fdv tgt now).targets.map (fun t => t.url) =
      pool.targets.map (fun t => t.url) := by
  rw [returnMid_targets]
  exact modifyTarget_map_url pool tgt _ (fun t => rfl)

theorem returnFin_length (q : Pool) (tgt newId : Nat) :
    (returnFin q tgt newId).targets.length = q.targets.length := by
  unfold returnFin
  rw [modifyTarget_length]

theorem returnFin_map_url (q : Pool) (tgt newId : Nat) :
    (returnFin q tgt newId).targets.map (fun t => t.url) = q.targets.map (fun t => t.url) := by
  unfold returnFin
  have h1 := modifyTarget_map_url ({ q with sockets := q.sockets ++ [newId] } : Pool) tgt
    (fun t => { t with idle := t.idle ++ [newId] }) (fun t => rfl)
  rw [h1, (update_sk_fields q _).2.1]

theorem returnMid_inert (pool : Pool) (fdv tgt now : Nat)
    (hres : ∀ id ∈ pool.sockets, (entryAt pool id).isSome)
    (hfresh : entryAt pool pool.nextEntryId = none)
    (hinert : expiryInert pool now) :
    expiryInert (returnMid pool fdv tgt now) now := by
  rcases hinert with h | h
  · exact Or.inl ((returnMid_fields pool fdv tgt now).2.2.2.2.1.trans h)
  · right
    intro id hid
    rw [(returnMid_fields pool fdv tgt now).2.1] at hid
    rw [(returnMid_fields pool fdv tgt now).2.2.2.1]
    have hne : id ≠ pool.nextEntryId := by
      intro he
      have hsome := hres id hid
      rw [he, hfresh] at hsome
      cases hsome
    unfold agedOf
    rw [returnMid_entryAt_old pool fdv tgt now id hne]
    exact h id hid

/-- `h2o_socketpool_return` on the success path, observationally: the new
entry id is `pool.nextEntryId`; it lands at the tail of the pool-wide chain
and the tail of its target's chain; the target's request count drops by one;
nothing else moves (the interposed `destroy_expired` is inert by
hypothesis). -/
theorem return_ok_obs (pool : Pool) (sock : Sock) (now : Nat) (cd : OnCloseData)
    (hcd : sock.closeData = some cd) (hpid : cd.poolId = pool.id)
    (htlt : cd.target < pool.targets.length)
    (hfresh : entryAt pool pool.nextEntryId = none)
    (hres : ∀ id ∈ pool.sockets, (entryAt pool id).isSome)
    (hinert : expiryInert pool now) :
    ∃ p5, h2o_socketpool_return pool sock now true = .ok p5 pool.nextEntryId ∧
      p5.sockets = pool.sockets ++ [pool.nextEntryId] ∧
      idleOf p5 cd.target = idleOf pool cd.target ++ [pool.nextEntryId] ∧
      (∀ i, cd.target ≠ i → idleOf p5 i = idleOf pool i) ∧
      rcOf p5 cd.target = subW (rcOf pool cd.target) ∧
      (∀ i, cd.target ≠ i → rcOf p5 i = rcOf pool i) ∧
      p5.count = pool.count ∧
      entryAt p5 pool.nextEntryId = some ⟨sock.fd, cd.target, now⟩ ∧
      (∀ id, id ≠ pool.nextEntryId → entryAt p5 id = entryAt pool id) ∧
      p5.id = pool.id ∧ p5.targets.length = pool.targets.length ∧
      p5.nextEntryId = pool.nextEntryId + 1 ∧
      p5.loopRegistered = pool.loopRegistered ∧
      p5.is_global = pool.is_global ∧
      p5.timeout = pool.timeout ∧
      p5.targets.map (fun t => t.url) = pool.targets.map (fun t => t.url) := by
  have hnid : (decRequestCount pool cd.target).nextEntryId = pool.nextEntryId :=
    (modifyTarget_misc pool cd.target _).1
  have hdestroy : destroy_expired (returnMid pool sock.fd cd.target now) now =
      returnMid pool sock.fd cd.target now :=
    destroy_expired_inert _ now (returnMid_inert pool sock.fd cd.target now hres hfresh hinert)
  have heq := return_ok_eq pool sock now cd hcd hpid
  rw [hdestroy, hnid] at heq
  set M := returnMid pool sock.fd cd.target now with hM
  set p5 := returnFin M cd.target pool.nextEntryId with hp5
  refine ⟨p5, heq, ?_, ?_, ?_, ?_, ?_, ?_, ?_, ?_, ?_, ?_, ?_, ?_, ?_, ?_, ?_⟩
  · rw [hp5, (returnFin_fields M cd.target pool.nextEntryId).2.1,
      (returnMid_fields pool sock.fd cd.target now).2.1]
  · have hlt : cd.target < M.targets.length := by
      rw [hM, returnMid_length]
      exact htlt
    rw [hp5, returnFin_idleOf_self M cd.target pool.nextEntryId hlt, hM, returnMid_idleOf]
  · intro i hne
    rw [hp5, returnFin_idleOf_ne M cd.target pool.nextEntryId i hne, hM, returnMid_idleOf]
  · rw [hp5, returnFin_rcOf, hM, returnMid_rcOf_self pool sock.fd cd.target now htlt]
  · intro i hne
    rw [hp5, returnFin_rcOf, hM, returnMid_rcOf_ne pool sock.fd cd.target now i hne]
  · rw [hp5, (returnFin_fields M cd.target pool.nextEntryId).2.2.1,
      hM, (returnMid_fields pool sock.fd cd.target now).2.2.1]
  · rw [hp5, returnFin_entryAt, hM, returnMid_entryAt_new pool sock.fd cd.target now hfresh]
  · intro id hne
    rw [hp5, returnFin_entryAt, hM, returnMid_entryAt_old pool sock.fd cd.target now id hne]
  · rw [hp5, (returnFin_fields M cd.target pool.nextEntryId).1,
      hM, (returnMid_fields pool sock.fd cd.target now).1]
  · rw [hp5, returnFin_length, hM, returnMid_length]
  · rw [hp5, (returnFin_fields M cd.target pool.nextEntryId).2.2.2.2.2.2.2,
      hM, (returnMid_fields pool sock.fd cd.target now).2.2.2.2.2.2]
  · rw [hp5, (returnFin_fields M cd.target pool.nextEntryId).2.2.2.2.2.1,
      hM, (returnMid_fields pool sock.fd cd.target now).2.2.2.2.1]
  · rw [hp5, (returnFin_fields M cd.target pool.nextEntryId).2.2.2.2.2.2.1,
      hM, (returnMid_fields pool sock.fd cd.target now).2.2.2.2.2.1]
  · rw [hp5, (returnFin_fields M cd.target pool.nextEntryId).2.2.2.2.1,
      hM, (returnMid_fields pool sock.fd cd.target now).2.2.2.1]
  · rw [hp5, returnFin_map_url, hM, returnMid_map_url]

/-! #### Request-count bookkeeping helpers -/

theorem rcOf_on_close (p : Pool) (cd : OnCloseData) (i : Nat) :
    rcOf (on_close p cd) i = rcOf (decRequestCount p cd.target) i := by
  unfold on_close rcOf getTargetD
  dsimp only

theorem rcOf_update_count (p : Pool) (c i : Nat) :
    rcOf ({ p with count := c } : Pool) i = rcOf p i := by
  unfold rcOf getTargetD
  rw [update_count_targets]

theorem try_fetch_go_rcOf (req : ConnReq) (o : Oracle) :
    ∀ (l : List Nat) (pool : Pool) (i : Nat),
      rcOf (fetchPool (try_fetch_go req o pool l)) i = rcOf pool i := by
  intro l
  induction l with
  | nil => intro pool i; rfl
  | cons id rest ih =>
    intro pool i
    unfold try_fetch_go
    cases he : entryAt pool id with
    | none => rfl
    | some e =>
      dsimp only
      cases hp : o.probe e.fd with
      | wouldblock =>
        show rcOf (removeEntry (unlinkEntry pool id e.target) id) i = rcOf pool i
        rw [rcOf_removeEntry, rcOf_unlinkEntry]
      | eof =>
        refine (ih (removeEntry (unlinkEntry pool id e.target) id) i).trans ?_
        rw [rcOf_removeEntry, rcOf_unlinkEntry]
      | extra =>
        refine (ih (removeEntry (unlinkEntry pool id e.target) id) i).trans ?_
        rw [rcOf_removeEntry, rcOf_unlinkEntry]

/-! #### Trace counting helpers -/

theorem countCb_append (l1 l2 : List Ev) : countCb (l1 ++ l2) = countCb l1 + countCb l2 := by
  unfold countCb
  exact List.countP_append _ _ _

theorem countFree_append (l1 l2 : List Ev) :
    countFree (l1 ++ l2) = countFree l1 + countFree l2 := by
  unfold countFree
  exact List.countP_append _ _ _

theorem mem_pair_split {e a b : Ev} {pre : List Ev} (h : e ∈ pre ++ [a, b]) :
    e ∈ pre ∨ e = a ∨ e = b := by
  rcases List.mem_append.1 h with h1 | h2
  · exact Or.inl h1
  · rcases List.mem_cons.1 h2 with h3 | h4
    · exact Or.inr (Or.inl h3)
    · exact Or.inr (Or.inr (by simpa using h4))

theorem noCF_not_cb {tr : List Ev} (h : noCF tr = true) {s : Option Sock} {err : Option String}
    (hm : Ev.cb s err ∈ tr) : False := by
  have he := List.all_eq_true.1 h _ hm
  simp only [Bool.and_eq_true, Bool.not_eq_true'] at he
  exact Bool.noConfusion he.1

theorem noCF_not_free {tr : List Ev} (h : noCF tr = true) {i : Nat}
    (hm : Ev.freeReq i ∈ tr) : False := by
  have he := List.all_eq_true.1 h _ hm
  simp only [Bool.and_eq_true, Bool.not_eq_true'] at he
  exact Bool.noConfusion he.2

/-! #### Concrete computation lemmas for `h2o_socketpool_connect` -/

theorem connect_select_eq_of_lookup (pool : Pool) (url : URL) (now : Nat) (t : Nat)
    (hinert : expiryInert pool now)
    (hg : pool.is_global = true) (hl : lookup_target pool url = some t)
    (hnz : ¬(pool.targets.length = 0)) :
    connect_select_target pool url now = .ok pool (some t) := by
  unfold connect_select_target
  rw [destroy_expired_inert pool now hinert]
  dsimp only
  rw [if_pos hg, hl]
  dsimp only
  rw [if_neg hnz]

theorem connect_select_add (pool : Pool) (url : URL) (now : Nat)
    (hinert : expiryInert pool now)
    (hg : pool.is_global = true) (hl : lookup_target pool url = none) :
    connect_select_target pool url now =
      .ok ({ pool with targets := pool.targets ++ [init_target url] } : Pool)
        (some pool.targets.length) ∧
    lookup_target ({ pool with targets := pool.targets ++ [init_target url] } : Pool) url =
      some pool.targets.length := by
  constructor
  · unfold connect_select_target
    rw [destroy_expired_inert pool now hinert]
    dsimp only
    rw [if_pos hg, hl]
    dsimp only [add_target]
    rw [if_neg (by simp)]
  · show lookup_go url (pool.targets ++ [init_target url]) 0 = some pool.targets.length
    rw [lookup_go_append url (init_target url) pool.targets 0 hl,
      if_pos (targetMatch_init url), Nat.zero_add]

theorem connect_reuse_lemma (pool : Pool) (url : URL) (now rid : Nat) (o : Oracle)
    (t nid : Nat) (e : PoolEntry)
    (hsel : connect_select_target pool url now = .ok pool (some t))
    (hidle : idleOf pool t = [nid])
    (hent : entryAt pool nid = some e)
    (halive : o.probe e.fd = ProbeResult.wouldblock) :
    h2o_socketpool_connect pool url now rid o =
      ⟨some rid, removeEntry (unlinkEntry pool nid e.target) nid,
        [Ev.cb (some ⟨e.fd, some ⟨pool.id, e.target⟩⟩) none, Ev.freeReq rid], false⟩ := by
  have hfetch : try_fetch_go (⟨rid, none, t, 1 - 1, none⟩ : ConnReq) o pool [nid] =
      .reused (removeEntry (unlinkEntry pool nid e.target) nid)
        [Ev.cb (some ⟨e.fd, some ⟨pool.id, e.target⟩⟩) none, Ev.freeReq rid] := by
    unfold try_fetch_go
    rw [hent]
    dsimp only
    rw [halive]
    dsimp only
    rw [show (removeEntry (unlinkEntry pool nid e.target) nid).id = pool.id from
      unlinkEntry_id pool nid e.target]
  have hatt : attempt_once pool (⟨rid, none, t, 1, none⟩ : ConnReq) o 0 =
      .done (removeEntry (unlinkEntry pool nid e.target) nid)
        [Ev.cb (some ⟨e.fd, some ⟨pool.id, e.target⟩⟩) none, Ev.freeReq rid] false := by
    unfold attempt_once
    rw [if_neg (show ¬((⟨rid, none, t, 1, none⟩ : ConnReq).remaining = 0) by
      dsimp only
      exact one_ne_zero)]
    dsimp only [lb_phase]
    rw [hidle]
    rw [hfetch]
  unfold h2o_socketpool_connect
  rw [hsel]
  dsimp only
  unfold try_connect
  dsimp only
  unfold try_connect_go
  rw [hatt]

theorem connect_syncfail_lemma (pool : Pool) (url : URL) (now rid : Nat) (o : Oracle) (t : Nat)
    (hsel : connect_select_target pool url now = .ok pool (some t))
    (hidle : idleOf pool t = [])
    (htyp : (getTargetD pool t).typ = TargetType.SOCKADDR)
    (hconn : o.conn 0 = ConnOutcome.syncFail) :
    h2o_socketpool_connect pool url now rid o =
      ⟨some rid, ({ pool with count := subW (addW pool.count) } : Pool),
        [Ev.addCount, Ev.subCount, Ev.freeReq rid,
          Ev.cb none (some "failed to connect to host")], false⟩ := by
  have hstart : start_connect_model ({ pool with count := addW pool.count } : Pool)
      (⟨rid, none, t, 1 - 1, none⟩ : ConnReq) o 0 =
      .done ({ pool with count := subW (addW pool.count) } : Pool)
        [Ev.subCount, Ev.freeReq rid, Ev.cb none (some "failed to connect to host")] false := by
    unfold start_connect_model
    rw [hconn]
    rfl
  have htyp3 : (getTargetD ({ pool with count := addW pool.count } : Pool) t).typ =
      TargetType.SOCKADDR := by
    unfold getTargetD
    rw [update_count_targets]
    exact htyp
  have hatt : attempt_once pool (⟨rid, none, t, 1, none⟩ : ConnReq) o 0 =
      .done ({ pool with count := subW (addW pool.count) } : Pool)
        [Ev.addCount, Ev.subCount, Ev.freeReq rid,
          Ev.cb none (some "failed to connect to host")] false := by
    unfold attempt_once
    rw [if_neg (show ¬((⟨rid, none, t, 1, none⟩ : ConnReq).remaining = 0) by
      dsimp only
      exact one_ne_zero)]
    dsimp only [lb_phase]
    rw [hidle]
    dsimp only [try_fetch_go]
    rw [htyp3]
    rw [hstart]
    rfl
  unfold h2o_socketpool_connect
  rw [hsel]
  dsimp only
  unfold try_connect
  dsimp only
  unfold try_connect_go
  rw [hatt]

theorem connect_pool_sameShape (pool : Pool) (url : URL) (now rid : Nat) (o : Oracle) :
    sameShape (h2o_socketpool_connect pool url now rid o).pool
      (selPool (connect_select_target pool url now)) := by
  unfold h2o_socketpool_connect
  cases hsel : connect_select_target pool url now with
  | ab p =>
    dsimp only [selPool]
    exact sameShape_refl p
  | ok p tgt =>
    dsimp only [selPool]
    cases tgt with
    | some i =>
      rcases try_connect_go_spec o 1 p ⟨rid, none, i, 1, none⟩ 0 rfl True.intro with
        ⟨_, _, hsh⟩ | ⟨_, _, hsh⟩ <;> exact hsh
    | none =>
      rcases try_connect_go_spec o p.targets.length p
          ⟨rid, none, W - 1, p.targets.length, some (List.replicate p.targets.length false)⟩ 0
          rfl True.intro with
        ⟨_, _, hsh⟩ | ⟨_, _, hsh⟩ <;> exact hsh

theorem idleOf_oob (p : Pool) (i : Nat) (h : p.targets.length ≤ i) : idleOf p i = [] := by
  unfold idleOf getTargetD
  rw [List.get?_eq_none.2 h]
  rfl

/-! ### Claim theorems -/

/-- C4: with a registered loop and a sane clock, `destroy_expired` removes
exactly the maximal expired prefix of the oldest-first pool-wide chain —
each removed entry is unlinked from both chains and disposed (it leaves the
entry map), `pool._shared.count` drops once per removed entry, and it stops
at the first entry whose `added_at` exceeds `now - timeout`, leaving every
newer entry untouched in both chains. -/
theorem claim4_thm (pool : Pool) (now : Nat)
    (hloop : pool.loopRegistered = true)
    (ht : pool.timeout ≤ now) (hw : now < W)
    (hnd : pool.sockets.Nodup)
    (hres : ∀ id ∈ pool.sockets, (entryAt pool id).isSome)
    (hind : ∀ i, (idleOf pool i).Nodup)
    (hcons : ∀ i id, id ∈ idleOf pool i → ∃ e, entryAt pool id = some e ∧ e.target = i) :
    (destroy_expired pool now).sockets =
      pool.sockets.dropWhile (expiredB pool (now - pool.timeout)) ∧
    (destroy_expired pool now).count =
      subWn pool.count (pool.sockets.takeWhile (expiredB pool (now - pool.timeout))).length ∧
    (∀ id ∈ pool.sockets.takeWhile (expiredB pool (now - pool.timeout)),
      entryAt (destroy_expired pool now) id = none ∧
        ∀ i, id ∉ idleOf (destroy_expired pool now) i) ∧
    (∀ id ∈ pool.sockets.dropWhile (expiredB pool (now - pool.timeout)),
      entryAt (destroy_expired pool now) id = entryAt pool id ∧
        ∀ i, (id ∈ idleOf (destroy_expired pool now) i ↔ id ∈ idleOf pool i)) :=
  destroy_expired_spec pool now hloop ht hw hnd hres hind hcons

theorem claim4_witness :
    (destroy_expired poolC4 1000).sockets = [2] ∧
    (destroy_expired poolC4 1000).count = 4 ∧
    entryAt (destroy_expired poolC4 1000) 1 = none ∧
    (1 ∉ idleOf (destroy_expired poolC4 1000) 0) ∧
    entryAt (destroy_expired poolC4 1000) 2 = entryAt poolC4 2 := by
  have hind : ∀ i, (idleOf poolC4 i).Nodup := by
    intro i
    rcases Nat.lt_or_ge i poolC4.targets.length with h | h
    · have h1 : poolC4.targets.length = 1 := rfl
      have hi0 : i = 0 := by omega
      subst hi0
      decide
    · rw [idleOf_oob poolC4 i h]
      exact List.nodup_nil
  have hcons : ∀ i id, id ∈ idleOf poolC4 i →
      ∃ e, entryAt poolC4 id = some e ∧ e.target = i := by
    intro i id hid
    rcases Nat.lt_or_ge i poolC4.targets.length with h | h
    · have h1 : poolC4.targets.length = 1 := rfl
      have hi0 : i = 0 := by omega
      subst hi0
      have h2 : id ∈ [1, 2] := hid
      rcases List.mem_cons.1 h2 with rfl | h3
      · exact ⟨⟨10, 0, 5⟩, by decide, rfl⟩
      · rcases List.mem_cons.1 h3 with rfl | h4
        · exact ⟨⟨11, 0, 999⟩, by decide, rfl⟩
        · cases h4
    · rw [idleOf_oob poolC4 i h] at hid
      cases hid
  have h := claim4_thm poolC4 1000 rfl (by decide) (by decide) (by decide) (by decide)
    hind hcons
  refine ⟨h.1.trans (by decide), h.2.1.trans (by decide), ?_, ?_, ?_⟩
  · exact (h.2.2.1 1 (by decide)).1
  · exact (h.2.2.1 1 (by decide)).2 0
  · exact (h.2.2.2 2 (by decide)).1

/-- C8: `h2o_socketpool_return` asserts that the on-close data names the
pool it was called on: when the socket's recorded pool id matches, the
assert cannot fire (the return completes along the export path); when it
names a different pool the call aborts with the pool state untouched; and
every socket a connect run hands to its callback carries on-close data
naming that pool. -/
theorem claim8_thm :
    (∀ (pool : Pool) (sock : Sock) (now : Nat) (e : Bool) (cd : OnCloseData),
      sock.closeData = some cd → cd.poolId = pool.id →
      retAborted (h2o_socketpool_return pool sock now e) = false) ∧
    (∀ (pool : Pool) (sock : Sock) (now : Nat) (e : Bool) (cd : OnCloseData),
      sock.closeData = some cd → cd.poolId ≠ pool.id →
      h2o_socketpool_return pool sock now e = .aborted pool) ∧
    (∀ (pool : Pool) (url : URL) (now rid : Nat) (o : Oracle) (s : Sock) (err : Option String),
      Ev.cb (some s) err ∈ (h2o_socketpool_connect pool url now rid o).trace →
      ∃ t, s.closeData = some ⟨pool.id, t⟩) := by
  refine ⟨?_, ?_, ?_⟩
  · intro pool sock now e cd hcd hpid
    unfold h2o_socketpool_return
    rw [hcd]
    dsimp only
    rw [if_neg (not_not_intro hpid)]
    cases e with
    | false =>
      rw [if_pos rfl]
      rfl
    | true =>
      rw [if_neg (fun hc => Bool.noConfusion hc)]
      rfl
  · intro pool sock now e cd hcd hne
    unfold h2o_socketpool_return
    rw [hcd]
    dsimp only
    rw [if_pos hne]
  · intro pool url now rid o s err hmem
    rcases connect_machine_spec pool url now rid o with ⟨_, hn⟩ | ⟨_, htt⟩
    · exact (noCF_not_cb hn hmem).elim
    · obtain ⟨pre, s', err', hpre, herr, hsock, hshape⟩ := htt
      have hcase : Ev.cb (some s) err ∈ pre ∨ Ev.cb (some s) err = Ev.cb s' err' ∨
          Ev.cb (some s) err = Ev.freeReq rid := by
        rcases hshape with hsh | hsh
        · rw [hsh] at hmem
          rcases mem_pair_split hmem with h1 | h2 | h3
          · exact Or.inl h1
          · exact Or.inr (Or.inl h2)
          · exact Or.inr (Or.inr h3)
        · rw [hsh] at hmem
          rcases mem_pair_split hmem with h1 | h2 | h3
          · exact Or.inl h1
          · exact Or.inr (Or.inr h2)
          · exact Or.inr (Or.inl h3)
      rcases hcase with h1 | h2 | h3
      · exact (noCF_not_cb hpre h1).elim
      · have hs' : s' = some s := by
          injection h2 with ha hb
          exact ha.symm
        rw [hs'] at hsock
        obtain ⟨cd, hc, hp⟩ := hsock
        cases cd with
        | mk pid tgt =>
          refine ⟨tgt, ?_⟩
          have hp' : pid = pool.id := hp
          rw [hc, hp']
      · cases h3

theorem claim8_witness :
    retAborted (h2o_socketpool_return poolC2 sockS 100 true) = false ∧
    h2o_socketpool_return poolC2 sockBad 100 true = .aborted poolC2 ∧
    ∃ t, (⟨42, some ⟨0, 0⟩⟩ : Sock).closeData = some ⟨poolC1.id, t⟩ := by
  refine ⟨?_, ?_, ?_⟩
  · exact claim8_thm.1 poolC2 sockS 100 true ⟨0, 0⟩ rfl rfl
  · exact claim8_thm.2.1 poolC2 sockBad 100 true ⟨9, 0⟩ rfl (by decide)
  · exact claim8_thm.2.2 poolC1 urlH 100 7 oLive ⟨42, some ⟨0, 0⟩⟩ none (by decide)

/-- C9: while no loop is registered, `destroy_expired` is the identity on the
pool; consequently the `destroy_expired` calls inside `h2o_socketpool_return`
and `h2o_socketpool_connect` remove nothing: a successful return only adds
the new idle entry (every other entry and idle chain is untouched), and the
critical section of connect leaves the pool-wide chain, the entry map and
every existing idle chain unchanged, regardless of entry ages. -/
theorem claim9_thm :
    (∀ (pool : Pool) (now : Nat), pool.loopRegistered = false →
      destroy_expired pool now = pool) ∧
    (∀ (pool : Pool) (sock : Sock) (now : Nat) (cd : OnCloseData),
      sock.closeData = some cd → cd.poolId = pool.id →
      cd.target < pool.targets.length →
      entryAt pool pool.nextEntryId = none →
      (∀ id ∈ pool.sockets, (entryAt pool id).isSome) →
      pool.loopRegistered = false →
      ∃ p5, h2o_socketpool_return pool sock now true = .ok p5 pool.nextEntryId ∧
        p5.sockets = pool.sockets ++ [pool.nextEntryId] ∧
        idleOf p5 cd.target = idleOf pool cd.target ++ [pool.nextEntryId] ∧
        (∀ i, cd.target ≠ i → idleOf p5 i = idleOf pool i) ∧
        (∀ id, id ≠ pool.nextEntryId → entryAt p5 id = entryAt pool id)) ∧
    (∀ (pool : Pool) (url : URL) (now : Nat), pool.loopRegistered = false →
      (selPool (connect_select_target pool url now)).sockets = pool.sockets ∧
      (selPool (connect_select_target pool url now)).entries = pool.entries ∧
      ∀ i, i < pool.targets.length →
        idleOf (selPool (connect_select_target pool url now)) i = idleOf pool i) := by
  refine ⟨?_, ?_, ?_⟩
  · exact destroy_expired_noloop
  · intro pool sock now cd hcd hpid htlt hfresh hres hloop
    obtain ⟨p5, heq, hsk, hidle, hidlne, _, _, _, _, hold, _⟩ :=
      return_ok_obs pool sock now cd hcd hpid htlt hfresh hres (Or.inl hloop)
    exact ⟨p5, heq, hsk, hidle, hidlne, hold⟩
  · intro pool url now hloop
    unfold connect_select_target
    rw [destroy_expired_noloop pool now hloop]
    dsimp only
    cases hg : pool.is_global with
    | false =>
      rw [if_neg (fun hc => Bool.noConfusion hc)]
      dsimp only
      split
      · exact ⟨rfl, rfl, fun i _ => rfl⟩
      · exact ⟨rfl, rfl, fun i _ => rfl⟩
    | true =>
      rw [if_pos rfl]
      cases hl : lookup_target pool url with
      | some i =>
        dsimp only
        split
        · exact ⟨rfl, rfl, fun i _ => rfl⟩
        · exact ⟨rfl, rfl, fun i _ => rfl⟩
      | none =>
        dsimp only [add_target]
        have hsides : ∀ i, i < pool.targets.length →
            idleOf ({ pool with targets := pool.targets ++ [init_target url] } : Pool) i =
              idleOf pool i := by
          intro i hi
          unfold idleOf getTargetD
          dsimp only
          rw [List.get?_append hi]
        split
        · exact ⟨rfl, rfl, hsides⟩
        · exact ⟨rfl, rfl, hsides⟩

theorem claim9_witness :
    destroy_expired poolC2 5000 = poolC2 ∧
    (∃ p5, h2o_socketpool_return poolE sockS 100 true = .ok p5 poolE.nextEntryId ∧
      p5.sockets = poolE.sockets ++ [poolE.nextEntryId] ∧
      idleOf p5 0 = idleOf poolE 0 ++ [poolE.nextEntryId] ∧
      (∀ i, 0 ≠ i → idleOf p5 i = idleOf poolE i) ∧
      (∀ id, id ≠ poolE.nextEntryId → entryAt p5 id = entryAt poolE id)) ∧
    (selPool (connect_select_target poolC2 urlH 5000)).sockets = poolC2.sockets := by
  refine ⟨?_, ?_, ?_⟩
  · exact claim9_thm.1 poolC2 5000 rfl
  · exact claim9_thm.2.1 poolE sockS 100 ⟨0, 0⟩ rfl rfl (by decide) (by decide) (by decide) rfl
  · exact (claim9_thm.2.2 poolC2 urlH 5000 rfl).1

/-- C10: `h2o_socketpool_connect` stores the fresh request into `*_req`
whenever target selection succeeds, and never resets it: on the two
synchronously completing paths — reuse of a live idle entry, and synchronous
`h2o_socket_connect` failure — the run's trace already contains the
callback invocation and the `free` of the request, yet `*_req` still holds
that request rather than `NULL`. -/
theorem claim10_thm :
    (∀ (pool : Pool) (url : URL) (now rid : Nat) (o : Oracle) (p : Pool) (tgt : Option Nat),
      connect_select_target pool url now = .ok p tgt →
      (h2o_socketpool_connect pool url now rid o).outReq = some rid) ∧
    (∀ (pool : Pool) (url : URL) (now rid : Nat) (o : Oracle) (t nid : Nat) (e : PoolEntry),
      connect_select_target pool url now = .ok pool (some t) →
      idleOf pool t = [nid] → entryAt pool nid = some e →
      o.probe e.fd = ProbeResult.wouldblock →
      (h2o_socketpool_connect pool url now rid o).outReq = some rid ∧
      (h2o_socketpool_connect pool url now rid o).trace =
        [Ev.cb (some ⟨e.fd, some ⟨pool.id, e.target⟩⟩) none, Ev.freeReq rid]) ∧
    (∀ (pool : Pool) (url : URL) (now rid : Nat) (o : Oracle) (t : Nat),
      connect_select_target pool url now = .ok pool (some t) →
      idleOf pool t = [] → (getTargetD pool t).typ = TargetType.SOCKADDR →
      o.conn 0 = ConnOutcome.syncFail →
      (h2o_socketpool_connect pool url now rid o).outReq = some rid ∧
      (h2o_socketpool_connect pool url now rid o).trace =
        [Ev.addCount, Ev.subCount, Ev.freeReq rid,
          Ev.cb none (some "failed to connect to host")]) := by
  refine ⟨?_, ?_, ?_⟩
  · intro pool url now rid o p tgt hsel
    unfold h2o_socketpool_connect
    rw [hsel]
  · intro pool url now rid o t nid e hsel hidle hent halive
    rw [connect_reuse_lemma pool url now rid o t nid e hsel hidle hent halive]
    exact ⟨rfl, rfl⟩
  · intro pool url now rid o t hsel hidle htyp hconn
    rw [connect_syncfail_lemma pool url now rid o t hsel hidle htyp hconn]
    exact ⟨rfl, rfl⟩

theorem claim10_witness :
    (h2o_socketpool_connect poolC1 urlH 100 7 oLive).outReq = some 7 ∧
    (h2o_socketpool_connect poolC1 urlH 100 7 oLive).trace =
      [Ev.cb (some ⟨42, some ⟨poolC1.id, 0⟩⟩) none, Ev.freeReq 7] ∧
    (h2o_socketpool_connect poolE urlH 100 8 oSync).outReq = some 8 ∧
    (h2o_socketpool_connect poolE urlH 100 8 oSync).trace =
      [Ev.addCount, Ev.subCount, Ev.freeReq 8,
        Ev.cb none (some "failed to connect to host")] := by
  have hsel1 : connect_select_target poolC1 urlH 100 = .ok poolC1 (some 0) :=
    connect_select_eq_of_lookup poolC1 urlH 100 0 (Or.inl rfl) rfl (by decide) (by decide)
  have hsel2 : connect_select_target poolE urlH 100 = .ok poolE (some 0) :=
    connect_select_eq_of_lookup poolE urlH 100 0 (Or.inl rfl) rfl (by decide) (by decide)
  have h1 := claim10_thm.2.1 poolC1 urlH 100 7 oLive 0 0 ⟨42, 0, 50⟩ hsel1 (by decide)
    (by decide) rfl
  have h2 := claim10_thm.2.2 poolE urlH 100 8 oSync 0 hsel2 (by decide) (by decide) rfl
  exact ⟨h1.1, h1.2, h2.1, h2.2⟩

/-- C5: every error string a connect run can hand to the callback is null,
one of the two literals, or a resolver error verbatim; and each arises
exactly as described — synchronous connect failure decrements the pool-wide
count and reports "failed to connect to host", an asynchronous failure with
no tries left reports "connection failed", resolver failure decrements the
pool-wide count and reports the resolver's string, and a successful connect
completes with a null error. -/
theorem claim5_thm :
    (∀ (pool : Pool) (url : URL) (now rid : Nat) (o : Oracle) (s : Option Sock)
        (err : Option String),
      Ev.cb s err ∈ (h2o_socketpool_connect pool url now rid o).trace → allowedErr o err) ∧
    (∀ (pool : Pool) (req : ConnReq) (o : Oracle) (a : Nat),
      o.conn a = ConnOutcome.syncFail →
      start_connect_model pool req o a =
        .done ({ pool with count := subW pool.count } : Pool)
          [Ev.subCount, Ev.freeReq req.id, Ev.cb none (some "failed to connect to host")]
          false) ∧
    (∀ (pool : Pool) (req : ConnReq) (o : Oracle) (a : Nat) (e : String),
      o.resolve a = some e →
      on_getaddr_model pool req o a =
        .done ({ pool with count := subW pool.count } : Pool)
          [Ev.subCount, Ev.freeReq req.id, Ev.cb req.sock (some e)] false) ∧
    (∀ (pool : Pool) (req : ConnReq) (fd : Nat) (cd : OnCloseData),
      req.sock = some ⟨fd, some cd⟩ → req.remaining = 0 →
      on_connect_model pool req true =
        .done (on_close (decRequestCount pool req.selected_target) cd)
          [Ev.subCount, Ev.freeReq req.id, Ev.cb none (some "connection failed")] false) ∧
    (∀ (pool : Pool) (req : ConnReq),
      on_connect_model pool req false =
        .done pool [Ev.freeReq req.id, Ev.cb req.sock none] false) := by
  refine ⟨?_, ?_, ?_, ?_, ?_⟩
  · intro pool url now rid o s err hmem
    rcases connect_machine_spec pool url now rid o with ⟨_, hn⟩ | ⟨_, htt⟩
    · exact (noCF_not_cb hn hmem).elim
    · obtain ⟨pre, s', err', hpre, herr, hsock, hshape⟩ := htt
      have hcase : Ev.cb s err ∈ pre ∨ Ev.cb s err = Ev.cb s' err' ∨
          Ev.cb s err = Ev.freeReq rid := by
        rcases hshape with hsh | hsh
        · rw [hsh] at hmem
          rcases mem_pair_split hmem with h1 | h2 | h3
          · exact Or.inl h1
          · exact Or.inr (Or.inl h2)
          · exact Or.inr (Or.inr h3)
        · rw [hsh] at hmem
          rcases mem_pair_split hmem with h1 | h2 | h3
          · exact Or.inl h1
          · exact Or.inr (Or.inr h2)
          · exact Or.inr (Or.inl h3)
      rcases hcase with h1 | h2 | h3
      · exact (noCF_not_cb hpre h1).elim
      · have herr' : err = err' := by
          injection h2 with ha hb
        rw [herr']
        exact herr
      · cases h3
  · intro pool req o a hc
    unfold start_connect_model
    rw [hc]
    rfl
  · intro pool req o a e hr
    unfold on_getaddr_model
    rw [hr]
    rfl
  · intro pool req fd cd hsock hrem
    unfold on_connect_model
    rw [if_pos rfl, hsock]
    dsimp only [socket_close]
    rw [if_pos hrem]
    rfl
  · intro pool req
    unfold on_connect_model
    rw [if_neg (fun hc => Bool.noConfusion hc)]
    rfl

theorem claim5_witness :
    allowedErr oSync (some "failed to connect to host") ∧
    start_connect_model poolE reqF oSync 0 =
      .done ({ poolE with count := subW poolE.count } : Pool)
        [Ev.subCount, Ev.freeReq reqF.id, Ev.cb none (some "failed to connect to host")]
        false ∧
    on_connect_model poolE reqE true =
      .done (on_close (decRequestCount poolE reqE.selected_target) ⟨0, 0⟩)
        [Ev.subCount, Ev.freeReq reqE.id, Ev.cb none (some "connection failed")] false ∧
    on_connect_model poolE reqE false =
      .done poolE [Ev.freeReq reqE.id, Ev.cb reqE.sock none] false := by
  refine ⟨?_, ?_, ?_, ?_⟩
  · have h := claim5_thm.1 poolE urlH 100 8 oSync none (some "failed to connect to host")
    refine h ?_
    rw [show (h2o_socketpool_connect poolE urlH 100 8 oSync).trace =
        [Ev.addCount, Ev.subCount, Ev.freeReq 8,
          Ev.cb none (some "failed to connect to host")] from by decide]
    decide
  · exact claim5_thm.2.1 poolE reqF oSync 0 rfl
  · exact claim5_thm.2.2.2.1 poolE reqE 42 ⟨0, 0⟩ rfl rfl
  · exact claim5_thm.2.2.2.2 poolE reqE

/-- C6: along every path of the connect state machine the callback is
invoked at most once, the request object is freed exactly as many times as
the callback is invoked (once on a completed run, never on an aborted one),
and every `free` in the trace frees exactly the request this connect
allocated. -/
theorem claim6_thm (pool : Pool) (url : URL) (now rid : Nat) (o : Oracle) :
    countCb (h2o_socketpool_connect pool url now rid o).trace ≤ 1 ∧
    countFree (h2o_socketpool_connect pool url now rid o).trace =
      countCb (h2o_socketpool_connect pool url now rid o).trace ∧
    ∀ i, Ev.freeReq i ∈ (h2o_socketpool_connect pool url now rid o).trace → i = rid := by
  rcases connect_machine_spec pool url now rid o with ⟨_, hn⟩ | ⟨_, htt⟩
  · refine ⟨?_, ?_, ?_⟩
    · rw [countCb_of_noCF hn]
      exact Nat.zero_le 1
    · rw [countCb_of_noCF hn, countFree_of_noCF hn]
    · intro i hm
      exact (noCF_not_free hn hm).elim
  · obtain ⟨pre, s, err, hpre, herr, hsock, hshape⟩ := htt
    have hcnt : countCb (h2o_socketpool_connect pool url now rid o).trace = 1 ∧
        countFree (h2o_socketpool_connect pool url now rid o).trace = 1 := by
      rcases hshape with hsh | hsh <;>
        rw [hsh, countCb_append, countFree_append, countCb_of_noCF hpre,
          countFree_of_noCF hpre] <;>
        exact ⟨rfl, rfl⟩
    refine ⟨le_of_eq hcnt.1, hcnt.2.trans hcnt.1.symm, ?_⟩
    intro i hm
    have hcase : Ev.freeReq i ∈ pre ∨ Ev.freeReq i = Ev.cb s err ∨
        Ev.freeReq i = Ev.freeReq rid := by
      rcases hshape with hsh | hsh
      · rw [hsh] at hm
        rcases mem_pair_split hm with h1 | h2 | h3
        · exact Or.inl h1
        · exact Or.inr (Or.inl h2)
        · exact Or.inr (Or.inr h3)
      · rw [hsh] at hm
        rcases mem_pair_split hm with h1 | h2 | h3
        · exact Or.inl h1
        · exact Or.inr (Or.inr h2)
        · exact Or.inr (Or.inl h3)
    rcases hcase with h1 | h2 | h3
    · exact (noCF_not_free hpre h1).elim
    · cases h2
    · injection h3

theorem claim6_witness :
    countCb (h2o_socketpool_connect poolC1 urlH 100 7 oLive).trace ≤ 1 ∧
    countFree (h2o_socketpool_connect poolC1 urlH 100 7 oLive).trace =
      countCb (h2o_socketpool_connect poolC1 urlH 100 7 oLive).trace ∧
    7 = 7 := by
  have h := claim6_thm poolC1 urlH 100 7 oLive
  exact ⟨h.1, h.2.1, h.2.2 7 (by decide)⟩

/-- C7: `lookup_target` is a first-match linear scan on scheme, effective
port and host-equivalence; on a global pool a connect for an unmatched URL
appends exactly one target, which a subsequent lookup of the same URL then
finds, so a second connect selects the existing target without growing the
target vector. -/
theorem claim7_thm :
    (∀ (pool : Pool) (url : URL) (i : Nat), lookup_target pool url = some i →
      i < pool.targets.length ∧ targetMatch (getTargetD pool i) url = true ∧
      ∀ j, j < i → targetMatch (getTargetD pool j) url = false) ∧
    (∀ (pool : Pool) (url : URL), lookup_target pool url = none →
      ∀ j, j < pool.targets.length → targetMatch (getTargetD pool j) url = false) ∧
    (∀ (pool : Pool) (url : URL) (now rid : Nat) (o : Oracle),
      expiryInert pool now → pool.is_global = true → lookup_target pool url = none →
      (h2o_socketpool_connect pool url now rid o).pool.targets.length =
        pool.targets.length + 1 ∧
      lookup_target (h2o_socketpool_connect pool url now rid o).pool url =
        some pool.targets.length) ∧
    (∀ (pool : Pool) (url : URL) (now : Nat) (t : Nat),
      expiryInert pool now → pool.is_global = true → lookup_target pool url = some t →
      ¬(pool.targets.length = 0) →
      connect_select_target pool url now = .ok pool (some t)) := by
  refine ⟨?_, ?_, ?_, ?_⟩
  · intro pool url i hl
    obtain ⟨k, hk, hik, hm, hprev⟩ := lookup_go_some url pool.targets 0 i hl
    have hik' : i = k := by omega
    subst hik'
    exact ⟨hk, hm, hprev⟩
  · intro pool url hl
    exact lookup_go_none url pool.targets 0 hl
  · intro pool url now rid o hinert hg hl
    obtain ⟨hsel, hlk⟩ := connect_select_add pool url now hinert hg hl
    have hshape := connect_pool_sameShape pool url now rid o
    rw [hsel] at hshape
    have hsh2 : sameShape (h2o_socketpool_connect pool url now rid o).pool
        ({ pool with targets := pool.targets ++ [init_target url] } : Pool) := hshape
    constructor
    · rw [sameShape_length hsh2]
      simp
    · rw [lookup_congr _ _ url hsh2.2]
      exact hlk
  · intro pool url now t hinert hg hl hnz
    exact connect_select_eq_of_lookup pool url now t hinert hg hl hnz

theorem claim7_witness :
    lookup_target poolG urlH = none ∧
    (h2o_socketpool_connect poolG urlH 100 3 oLive).pool.targets.length = 1 ∧
    lookup_target (h2o_socketpool_connect poolG urlH 100 3 oLive).pool urlH = some 0 ∧
    connect_select_target poolC1 urlH 100 = .ok poolC1 (some 0) ∧
    targetMatch (getTargetD poolC1 0) urlH = true := by
  have hnone : lookup_target poolG urlH = none := by decide
  have hg := claim7_thm.2.2.1 poolG urlH 100 3 oLive (Or.inl rfl) rfl hnone
  refine ⟨hnone, hg.1.trans (by decide), hg.2.trans (by decide), ?_, ?_⟩
  · exact claim7_thm.2.2.2 poolC1 urlH 100 0 (Or.inl rfl) rfl (by decide) (by decide)
  · exact (claim7_thm.1 poolC1 urlH 0 (by decide)).2.1

/-- C1 (amended): `request_count` is incremented only when the balancer
selects the target in `try_connect` — checkout of an idle entry leaves every
target's `request_count` unchanged; it is decremented on return
(`h2o_socketpool_return`) and on socket close (`on_close`), and the failure
path of `on_connect` decrements it twice (once explicitly and once through
the close hook); so `request_count` does not count checked-out idle
sockets. -/
theorem claim1_thm :
    (∀ (pool : Pool) (req : ConnReq) (tried : List Bool) (sel : Nat),
      req.tried = some tried → pool.hasBalancer = true →
      sel < pool.targets.length → tried.get? sel = some false →
      lb_phase pool req sel =
        some (incRequestCount pool sel,
          { req with selected_target := sel, tried := some (tried.set sel true) }) ∧
      rcOf (incRequestCount pool sel) sel = addW (rcOf pool sel)) ∧
    (∀ (req : ConnReq) (o : Oracle) (l : List Nat) (pool : Pool) (i : Nat),
      rcOf (fetchPool (try_fetch_go req o pool l)) i = rcOf pool i) ∧
    (∀ (pool : Pool) (sock : Sock) (now : Nat) (cd : OnCloseData),
      sock.closeData = some cd → cd.poolId = pool.id →
      cd.target < pool.targets.length →
      entryAt pool pool.nextEntryId = none →
      (∀ id ∈ pool.sockets, (entryAt pool id).isSome) →
      expiryInert pool now →
      rcOf (retPool (h2o_socketpool_return pool sock now true)) cd.target =
        subW (rcOf pool cd.target)) ∧
    (∀ (pool : Pool) (cd : OnCloseData), cd.target < pool.targets.length →
      rcOf (on_close pool cd) cd.target = subW (rcOf pool cd.target)) ∧
    (∀ (pool : Pool) (req : ConnReq) (fd : Nat) (cd : OnCloseData),
      req.sock = some ⟨fd, some cd⟩ → cd.target = req.selected_target →
      req.selected_target < pool.targets.length → req.remaining = 0 →
      rcOf (stepPool (on_connect_model pool req true)) req.selected_target =
        subW (subW (rcOf pool req.selected_target))) := by
  refine ⟨?_, ?_, ?_, ?_, ?_⟩
  · intro pool req tried sel htr hb hlt hget
    constructor
    · unfold lb_phase
      rw [htr]
      dsimp only
      rw [if_pos hb, if_pos ⟨hlt, hget⟩]
    · exact rcOf_incRequestCount_self pool sel hlt
  · intro req o l pool i
    exact try_fetch_go_rcOf req o l pool i
  · intro pool sock now cd hcd hpid htlt hfresh hres hinert
    obtain ⟨p5, heq, _, _, _, hrc, _⟩ :=
      return_ok_obs pool sock now cd hcd hpid htlt hfresh hres hinert
    rw [heq]
    exact hrc
  · intro pool cd htlt
    rw [rcOf_on_close]
    exact rcOf_decRequestCount_self pool cd.target htlt
  · intro pool req fd cd hsock hcdt hlt hrem
    have hstep : on_connect_model pool req true =
        .done (on_close (decRequestCount pool req.selected_target) cd)
          [Ev.subCount, Ev.freeReq req.id, Ev.cb none (some "connection failed")] false := by
      unfold on_connect_model
      rw [if_pos rfl, hsock]
      dsimp only [socket_close]
      rw [if_pos hrem]
      rfl
    rw [hstep]
    dsimp only [stepPool]
    rw [rcOf_on_close, hcdt,
      rcOf_decRequestCount_self _ _ (by rw [decRequestCount_length]; exact hlt),
      rcOf_decRequestCount_self _ _ hlt]

theorem claim1_witness :
    (lb_phase poolB reqB 0 =
      some (incRequestCount poolB 0,
        { reqB with selected_target := 0, tried := some ([false].set 0 true) }) ∧
      rcOf (incRequestCount poolB 0) 0 = addW (rcOf poolB 0)) ∧
    rcOf (fetchPool (try_fetch_go reqF oLive poolC1 [0])) 0 = rcOf poolC1 0 ∧
    rcOf (retPool (h2o_socketpool_return poolE sockS 100 true)) 0 = subW (rcOf poolE 0) ∧
    rcOf (on_close poolE ⟨0, 0⟩) 0 = subW (rcOf poolE 0) ∧
    rcOf (stepPool (on_connect_model poolE reqE true)) 0 = subW (subW (rcOf poolE 0)) := by
  refine ⟨?_, ?_, ?_, ?_, ?_⟩
  · exact claim1_thm.1 poolB reqB [false] 0 rfl rfl (by decide) rfl
  · exact claim1_thm.2.1 reqF oLive [0] poolC1 0
  · exact claim1_thm.2.2.1 poolE sockS 100 ⟨0, 0⟩ rfl rfl (by decide) (by decide) (by decide)
      (Or.inl rfl)
  · exact claim1_thm.2.2.2.1 poolE ⟨0, 0⟩ (by decide)
  · exact claim1_thm.2.2.2.2 poolE reqE 42 ⟨0, 0⟩ rfl rfl (by decide) rfl

theorem claim1_counterexample :
    (h2o_socketpool_connect poolC1 urlH 100 7 oLive).trace =
      [Ev.cb (some ⟨42, some ⟨0, 0⟩⟩) none, Ev.freeReq 7] ∧
    rcOf poolC1 0 = 0 ∧
    rcOf (h2o_socketpool_connect poolC1 urlH 100 7 oLive).pool 0 = 0 := by
  decide

/-- C2 (amended): a successful return inserts the new idle entry at the
tail of the pool-wide list and at the tail (not the head) of its target's
per-target list, while `try_connect` checks out from the head of the
per-target list; consequently idle entries of a target are reused in FIFO
order — after two returns into an empty target chain, a checkout probes and
hands out the first-returned socket, not the most recently returned one. -/
theorem claim2_thm :
    (∀ (pool : Pool) (sock : Sock) (now : Nat) (cd : OnCloseData),
      sock.closeData = some cd → cd.poolId = pool.id →
      cd.target < pool.targets.length →
      entryAt pool pool.nextEntryId = none →
      (∀ id ∈ pool.sockets, (entryAt pool id).isSome) →
      expiryInert pool now →
      ∃ p5, h2o_socketpool_return pool sock now true = .ok p5 pool.nextEntryId ∧
        p5.sockets = pool.sockets ++ [pool.nextEntryId] ∧
        idleOf p5 cd.target = idleOf pool cd.target ++ [pool.nextEntryId]) ∧
    (∀ (req : ConnReq) (o : Oracle) (pool : Pool) (id : Nat) (rest : List Nat) (e : PoolEntry),
      entryAt pool id = some e → o.probe e.fd = ProbeResult.wouldblock →
      try_fetch_go req o pool (id :: rest) =
        .reused (removeEntry (unlinkEntry pool id e.target) id)
          [Ev.cb (some ⟨e.fd, some ⟨pool.id, e.target⟩⟩) none, Ev.freeReq req.id]) ∧
    (∀ (pool : Pool) (s1 s2 : Sock) (t now1 now2 : Nat),
      pool.loopRegistered = false → t < pool.targets.length →
      idleOf pool t = [] →
      s1.closeData = some ⟨pool.id, t⟩ → s2.closeData = some ⟨pool.id, t⟩ →
      entryAt pool pool.nextEntryId = none →
      entryAt pool (pool.nextEntryId + 1) = none →
      (∀ id ∈ pool.sockets, (entryAt pool id).isSome) →
      ∃ p1 p2, h2o_socketpool_return pool s1 now1 true = .ok p1 pool.nextEntryId ∧
        h2o_socketpool_return p1 s2 now2 true = .ok p2 (pool.nextEntryId + 1) ∧
        idleOf p2 t = [pool.nextEntryId, pool.nextEntryId + 1] ∧
        entryAt p2 pool.nextEntryId = some ⟨s1.fd, t, now1⟩ ∧
        ∀ (req : ConnReq) (o : Oracle), o.probe s1.fd = ProbeResult.wouldblock →
          try_fetch_go req o p2 (idleOf p2 t) =
            .reused (removeEntry (unlinkEntry p2 pool.nextEntryId t) pool.nextEntryId)
              [Ev.cb (some ⟨s1.fd, some ⟨p2.id, t⟩⟩) none, Ev.freeReq req.id]) := by
  have hb : ∀ (req : ConnReq) (o : Oracle) (pool : Pool) (id : Nat) (rest : List Nat)
      (e : PoolEntry), entryAt pool id = some e → o.probe e.fd = ProbeResult.wouldblock →
      try_fetch_go req o pool (id :: rest) =
        .reused (removeEntry (unlinkEntry pool id e.target) id)
          [Ev.cb (some ⟨e.fd, some ⟨pool.id, e.target⟩⟩) none, Ev.freeReq req.id] := by
    intro req o pool id rest e hent hprobe
    unfold try_fetch_go
    rw [hent]
    dsimp only
    rw [hprobe]
    dsimp only
    rw [show (removeEntry (unlinkEntry pool id e.target) id).id = pool.id from
      unlinkEntry_id pool id e.target]
  refine ⟨?_, hb, ?_⟩
  · intro pool sock now cd hcd hpid htlt hfresh hres hinert
    obtain ⟨p5, heq, hsk, hidl, _⟩ :=
      return_ok_obs pool sock now cd hcd hpid htlt hfresh hres hinert
    exact ⟨p5, heq, hsk, hidl⟩
  · intro pool s1 s2 t now1 now2 hloop htlt hidle hs1 hs2 hfresh1 hfresh2 hres
    obtain ⟨p1, heq1, hsk1, hidl1, hidlne1, hrc1, hrcne1, hcnt1, hnew1, hold1, hid1, hlen1,
      hnext1, hlp1, hgl1, hto1, hmap1⟩ :=
      return_ok_obs pool s1 now1 ⟨pool.id, t⟩ hs1 rfl htlt hfresh1 hres (Or.inl hloop)
    have hpid2 : (⟨pool.id, t⟩ : OnCloseData).poolId = p1.id := hid1.symm
    have htlt2 : t < p1.targets.length := by
      rw [hlen1]
      exact htlt
    have hfresh2' : entryAt p1 p1.nextEntryId = none := by
      rw [hnext1, hold1 (pool.nextEntryId + 1) (by omega)]
      exact hfresh2
    have hres2 : ∀ k ∈ p1.sockets, (entryAt p1 k).isSome := by
      intro k hk
      rw [hsk1] at hk
      rcases List.mem_append.1 hk with h | h
      · by_cases hne : k = pool.nextEntryId
        · have hcontra := hres k h
          rw [hne, hfresh1] at hcontra
          exact Bool.noConfusion hcontra
        · rw [hold1 k hne]
          exact hres k h
      · have hone : k = pool.nextEntryId := by simpa using h
        rw [hone, hnew1]
        rfl
    have hlp1' : p1.loopRegistered = false := hlp1.trans hloop
    obtain ⟨p2, heq2, hsk2, hidl2, hidlne2, hrc2, hrcne2, hcnt2, hnew2, hold2, hid2, hlen2,
      hnext2, hlp2, hgl2, hto2, hmap2⟩ :=
      return_ok_obs p1 s2 now2 ⟨pool.id, t⟩ hs2 hpid2 htlt2 hfresh2' hres2 (Or.inl hlp1')
    rw [hnext1] at heq2
    have hidp2 : idleOf p2 t = [pool.nextEntryId, pool.nextEntryId + 1] := by
      rw [hidl2, hidl1, hidle, hnext1]
      rfl
    have hep2 : entryAt p2 pool.nextEntryId = some ⟨s1.fd, t, now1⟩ := by
      rw [hold2 pool.nextEntryId (by rw [hnext1]; omega)]
      exact hnew1
    refine ⟨p1, p2, heq1, heq2, hidp2, hep2, ?_⟩
    intro req o hprobe
    rw [hidp2]
    exact hb req o p2 pool.nextEntryId [pool.nextEntryId + 1] ⟨s1.fd, t, now1⟩ hep2 hprobe

theorem claim2_witness :
    (∃ p5, h2o_socketpool_return poolC2 sockS 100 true = .ok p5 poolC2.nextEntryId ∧
      p5.sockets = poolC2.sockets ++ [poolC2.nextEntryId] ∧
      idleOf p5 0 = idleOf poolC2 0 ++ [poolC2.nextEntryId]) ∧
    try_fetch_go reqF oLive poolC1 [0] =
      .reused (removeEntry (unlinkEntry poolC1 0 0) 0)
        [Ev.cb (some ⟨42, some ⟨poolC1.id, 0⟩⟩) none, Ev.freeReq 9] ∧
    (∃ p1 p2, h2o_socketpool_return poolE sockS 100 true = .ok p1 poolE.nextEntryId ∧
      h2o_socketpool_return p1 sockT 200 true = .ok p2 (poolE.nextEntryId + 1) ∧
      idleOf p2 0 = [poolE.nextEntryId, poolE.nextEntryId + 1] ∧
      entryAt p2 poolE.nextEntryId = some ⟨42, 0, 100⟩ ∧
      ∀ (req : ConnReq) (o : Oracle), o.probe 42 = ProbeResult.wouldblock →
        try_fetch_go req o p2 (idleOf p2 0) =
          .reused (removeEntry (unlinkEntry p2 poolE.nextEntryId 0) poolE.nextEntryId)
            [Ev.cb (some ⟨42, some ⟨p2.id, 0⟩⟩) none, Ev.freeReq req.id]) := by
  refine ⟨?_, ?_, ?_⟩
  · exact claim2_thm.1 poolC2 sockS 100 ⟨0, 0⟩ rfl rfl (by decide) (by decide) (by decide)
      (Or.inl rfl)
  · exact claim2_thm.2.1 reqF oLive poolC1 0 [] ⟨42, 0, 50⟩ (by decide) rfl
  · exact claim2_thm.2.2 poolE sockS sockT 0 100 200 rfl (by decide) (by decide) rfl rfl
      (by decide) (by decide) (by decide)

theorem claim2_counterexample :
    retCode (h2o_socketpool_return poolC2 sockS 100 true) = some 0 ∧
    idleOf (retPool (h2o_socketpool_return poolC2 sockS 100 true)) 0 = [5, 7] ∧
    (h2o_socketpool_connect (retPool (h2o_socketpool_return poolC2 sockS 100 true)) urlH 100 9
        oLive).trace =
      [Ev.cb (some ⟨10, some ⟨0, 0⟩⟩) none, Ev.freeReq 9] := by
  decide

/-- C3 (amended): the round-trip law holds for the file descriptor only
when the target's idle chain was empty before the return (otherwise the
FIFO head — an older socket — is handed out), and even then only the
pool-wide count is restored: a return followed by a connect for the same
URL on a live socket delivers the returned fd, leaves `pool._shared.count`
at its pre-return value, but ends with the target's `request_count` one
below its pre-return value (the checkout does not re-increment it). -/
theorem claim3_thm (pool : Pool) (sock : Sock) (url : URL) (now now2 rid : Nat) (o : Oracle)
    (cd : OnCloseData)
    (hcd : sock.closeData = some cd) (hpid : cd.poolId = pool.id)
    (htlt : cd.target < pool.targets.length)
    (hfresh : entryAt pool pool.nextEntryId = none)
    (hres : ∀ id ∈ pool.sockets, (entryAt pool id).isSome)
    (hloop : pool.loopRegistered = false)
    (hg : pool.is_global = true)
    (hlk : lookup_target pool url = some cd.target)
    (hidle : idleOf pool cd.target = [])
    (hprobe : o.probe sock.fd = ProbeResult.wouldblock) :
    ∃ p1, h2o_socketpool_return pool sock now true = .ok p1 pool.nextEntryId ∧
      (h2o_socketpool_connect p1 url now2 rid o).trace =
        [Ev.cb (some ⟨sock.fd, some ⟨pool.id, cd.target⟩⟩) none, Ev.freeReq rid] ∧
      (h2o_socketpool_connect p1 url now2 rid o).outReq = some rid ∧
      (h2o_socketpool_connect p1 url now2 rid o).pool.count = pool.count ∧
      rcOf (h2o_socketpool_connect p1 url now2 rid o).pool cd.target =
        subW (rcOf pool cd.target) := by
  obtain ⟨p1, heq1, hsk1, hidl1, hidlne1, hrc1, hrcne1, hcnt1, hnew1, hold1, hid1, hlen1,
    hnext1, hlp1, hgl1, hto1, hmap1⟩ :=
    return_ok_obs pool sock now cd hcd hpid htlt hfresh hres (Or.inl hloop)
  have hlp1' : p1.loopRegistered = false := hlp1.trans hloop
  have hg1 : p1.is_global = true := hgl1.trans hg
  have hlk1 : lookup_target p1 url = some cd.target := by
    rw [lookup_congr p1 pool url hmap1]
    exact hlk
  have hnz1 : ¬(p1.targets.length = 0) := by
    rw [hlen1]
    omega
  have hsel : connect_select_target p1 url now2 = .ok p1 (some cd.target) :=
    connect_select_eq_of_lookup p1 url now2 cd.target (Or.inl hlp1') hg1 hlk1 hnz1
  have hidl1' : idleOf p1 cd.target = [pool.nextEntryId] := by
    rw [hidl1, hidle]
    rfl
  have hconn := connect_reuse_lemma p1 url now2 rid o cd.target pool.nextEntryId
    ⟨sock.fd, cd.target, now⟩ hsel hidl1' hnew1 hprobe
  rw [hid1] at hconn
  refine ⟨p1, heq1, ?_, ?_, ?_, ?_⟩
  · rw [hconn]
  · rw [hconn]
  · rw [hconn]
    show (removeEntry (unlinkEntry p1 pool.nextEntryId cd.target) pool.nextEntryId).count =
      pool.count
    have hc1 : (removeEntry (unlinkEntry p1 pool.nextEntryId cd.target)
        pool.nextEntryId).count = (unlinkEntry p1 pool.nextEntryId cd.target).count := rfl
    rw [hc1, unlinkEntry_count]
    exact hcnt1
  · rw [hconn]
    show rcOf (removeEntry (unlinkEntry p1 pool.nextEntryId cd.target) pool.nextEntryId)
      cd.target = subW (rcOf pool cd.target)
    rw [rcOf_removeEntry, rcOf_unlinkEntry]
    exact hrc1

theorem claim3_witness :
    ∃ p1, h2o_socketpool_return poolE sockS 300 true = .ok p1 poolE.nextEntryId ∧
      (h2o_socketpool_connect p1 urlH 400 11 oLive).trace =
        [Ev.cb (some ⟨42, some ⟨poolE.id, 0⟩⟩) none, Ev.freeReq 11] ∧
      (h2o_socketpool_connect p1 urlH 400 11 oLive).outReq = some 11 ∧
      (h2o_socketpool_connect p1 urlH 400 11 oLive).pool.count = poolE.count ∧
      rcOf (h2o_socketpool_connect p1 urlH 400 11 oLive).pool 0 = subW (rcOf poolE 0) :=
  claim3_thm poolE sockS urlH 300 400 11 oLive ⟨0, 0⟩ rfl rfl (by decide) (by decide)
    (by decide) rfl rfl (by decide) (by decide) rfl

theorem claim3_counterexample :
    retCode (h2o_socketpool_return poolC2 sockS 50 true) = some 0 ∧
    rcOf poolC2 0 = 3 ∧
    (h2o_socketpool_connect (retPool (h2o_socketpool_return poolC2 sockS 50 true)) urlH 60 9
        oLive).trace = [Ev.cb (some ⟨10, some ⟨0, 0⟩⟩) none, Ev.freeReq 9] ∧
    rcOf (h2o_socketpool_connect (retPool (h2o_socketpool_return poolC2 sockS 50 true)) urlH 60
        9 oLive).pool 0 = 2 := by
  decide

end H2O
